import Mathlib

/-!
# Verification of the DSA-HW01 Sparse Matrix repository

A shallow embedding of `matrix_core.py`, `operations.py` and the parsing
part of `matrix_io.py`, together with proofs of the specified properties.

Modelling conventions:
* Python numbers become `ℚ` (the code's arithmetic on matrix values is
  exact field arithmetic on the numbers it is given; `ℚ` is the executable
  exact counterpart).
* The Python `dict` keyed by `(row, col)` becomes an insertion-ordered
  association list: assignment overwrites the first matching key in place
  and otherwise appends, deletion removes the key, lookup returns the first
  match, iteration (`items()`) is the list itself.  This reproduces the
  observable semantics of a Python `dict` (for the unique-key states the
  code creates).
* `raise` becomes `Except`: `IndexError("Index out of bounds.")` is
  `MatrixError.indexOutOfBounds`, the two `ValueError`s of
  `check_dimensions` are `MatrixError.dimensionMismatch` and
  `MatrixError.unknownOperation`; the parser's `ValueError`s keep their
  message strings.
-/

/-- Python-`dict` lookup on an association list: first entry with the key. -/
def alookup {κ : Type} [DecidableEq κ] {β : Type} : List (κ × β) → κ → Option β
  | [], _ => none
  | e :: rest, k => if e.1 = k then some e.2 else alookup rest k

/-- Python-`dict` assignment `d[k] = v`: overwrite the first entry with key
`k` in place, or append a new entry when the key is absent. -/
def aset {κ : Type} [DecidableEq κ] {β : Type} : List (κ × β) → κ → β → List (κ × β)
  | [], k, v => [(k, v)]
  | e :: rest, k, v => if e.1 = k then (k, v) :: rest else e :: aset rest k v

/-- Python-`dict` deletion `del d[k]`: remove the entries with key `k`
(at most one in any state the code creates). -/
def adel {κ : Type} [DecidableEq κ] {β : Type} : List (κ × β) → κ → List (κ × β)
  | [], _ => []
  | e :: rest, k => if e.1 = k then adel rest k else e :: adel rest k

section AssocLemmas

variable {κ : Type} [DecidableEq κ] {β : Type}

@[simp] theorem alookup_nil (k : κ) : alookup ([] : List (κ × β)) k = none := rfl

theorem alookup_cons (e : κ × β) (l : List (κ × β)) (k : κ) :
    alookup (e :: l) k = if e.1 = k then some e.2 else alookup l k := rfl

theorem alookup_aset (l : List (κ × β)) (k k' : κ) (v : β) :
    alookup (aset l k v) k' = if k = k' then some v else alookup l k' := by
  induction l with
  | nil => simp [aset, alookup_cons]
  | cons e rest ih =>
    by_cases he : e.1 = k
    · simp only [aset, if_pos he, alookup_cons]
      by_cases hk : k = k'
      · simp [hk]
      · have : ¬ e.1 = k' := by rw [he]; exact hk
        simp [hk, this]
    · simp only [aset, if_neg he, alookup_cons, ih]
      by_cases hk : e.1 = k'
      · have : ¬ k = k' := fun h => he (h ▸ hk)
        simp [hk, this]
      · simp [hk]

theorem alookup_adel (l : List (κ × β)) (k k' : κ) :
    alookup (adel l k) k' = if k = k' then none else alookup l k' := by
  induction l with
  | nil => simp [adel]
  | cons e rest ih =>
    by_cases he : e.1 = k
    · simp only [adel, if_pos he, ih]
      by_cases hk : k = k'
      · simp [hk]
      · have : ¬ e.1 = k' := by rw [he]; exact hk
        simp [hk, this, alookup_cons]
    · simp only [adel, if_neg he, alookup_cons, ih]
      by_cases hc : e.1 = k'
      · have : ¬ k = k' := fun h => he (h ▸ hc)
        simp [hc, this]
      · simp [hc]

theorem alookup_eq_none_iff (l : List (κ × β)) (k : κ) :
    alookup l k = none ↔ k ∉ l.map Prod.fst := by
  induction l with
  | nil => simp
  | cons e rest ih =>
    simp only [alookup_cons, List.map_cons, List.mem_cons]
    by_cases he : e.1 = k
    · simp [he]
    · have : ¬ k = e.1 := fun h => he h.symm
      simp [he, this, ih]

theorem alookup_eq_of_mem_nodup (l : List (κ × β)) (k : κ) (v : β)
    (hmem : (k, v) ∈ l) (hnd : (l.map Prod.fst).Nodup) :
    alookup l k = some v := by
  induction l with
  | nil => cases hmem
  | cons e rest ih =>
    rcases List.mem_cons.1 hmem with h | h
    · simp [alookup_cons, ← h]
    · have hk : k ∈ rest.map Prod.fst := List.mem_map.2 ⟨(k, v), h, rfl⟩
      have he : ¬ e.1 = k := by
        intro hek
        exact (List.nodup_cons.1 hnd).1 (hek ▸ hk)
      simp only [alookup_cons, if_neg he]
      exact ih h (List.nodup_cons.1 hnd).2

theorem alookup_isSome_of_mem (l : List (κ × β)) (k : κ)
    (hmem : k ∈ l.map Prod.fst) : ∃ v, alookup l k = some v := by
  cases h : alookup l k with
  | none => exact absurd hmem ((alookup_eq_none_iff l k).1 h)
  | some v => exact ⟨v, rfl⟩

/-- Key set of `aset`: updating an existing key leaves the key list
unchanged; setting a fresh key appends it. -/
theorem aset_map_fst (l : List (κ × β)) (k : κ) (v : β) :
    (aset l k v).map Prod.fst =
      if k ∈ l.map Prod.fst then l.map Prod.fst else l.map Prod.fst ++ [k] := by
  induction l with
  | nil => simp [aset]
  | cons e rest ih =>
    by_cases he : e.1 = k
    · simp [aset, he]
    · have : ¬ k = e.1 := fun h => he h.symm
      simp only [aset, if_neg he, List.map_cons, ih]
      by_cases hk : k ∈ rest.map Prod.fst <;> simp [hk, this]

theorem aset_nodup (l : List (κ × β)) (k : κ) (v : β)
    (hnd : (l.map Prod.fst).Nodup) : ((aset l k v).map Prod.fst).Nodup := by
  rw [aset_map_fst]
  by_cases hk : k ∈ l.map Prod.fst
  · simpa [hk]
  · rw [if_neg hk, List.nodup_append]
    exact ⟨hnd, List.nodup_singleton k, by simpa [List.disjoint_singleton] using hk⟩

theorem adel_sublist (l : List (κ × β)) (k : κ) : (adel l k).Sublist l := by
  induction l with
  | nil => simp [adel]
  | cons e rest ih =>
    by_cases he : e.1 = k
    · simpa [adel, he] using ih.cons e
    · simpa [adel, he] using ih.cons₂ e

theorem adel_nodup (l : List (κ × β)) (k : κ)
    (hnd : (l.map Prod.fst).Nodup) : ((adel l k).map Prod.fst).Nodup :=
  (((adel_sublist l k).map Prod.fst).nodup hnd)

theorem mem_aset (l : List (κ × β)) (k : κ) (v : β) (e : κ × β)
    (h : e ∈ aset l k v) : e ∈ l ∨ e = (k, v) := by
  induction l with
  | nil => simpa [aset] using h
  | cons f rest ih =>
    by_cases hf : f.1 = k
    · simp only [aset, if_pos hf, List.mem_cons] at h
      rcases h with h | h
      · exact Or.inr h
      · exact Or.inl (List.mem_cons_of_mem f h)
    · simp only [aset, if_neg hf, List.mem_cons] at h
      rcases h with h | h
      · exact Or.inl (h ▸ List.mem_cons_self f rest)
      · rcases ih h with h' | h'
        · exact Or.inl (List.mem_cons_of_mem f h')
        · exact Or.inr h'

theorem mem_adel (l : List (κ × β)) (k : κ) (e : κ × β)
    (h : e ∈ adel l k) : e ∈ l := (adel_sublist l k).mem h

end AssocLemmas

/-! ## `matrix_core.py` -/

/-- Errors raised by the core and by `check_dimensions`
(`IndexError("Index out of bounds.")` and the `ValueError`s of
`operations.py`). -/
inductive MatrixError where
  | indexOutOfBounds
  | dimensionMismatch
  | unknownOperation
deriving DecidableEq, Repr

/-- Embedding of `class SparseMatrix` of `matrix_core.py`: dimensions plus the
insertion-ordered dictionary `self.data` of non-zero entries. -/
structure SparseMatrix where
  rows : Int
  cols : Int
  data : List ((Int × Int) × ℚ)
deriving DecidableEq, Repr

/-- Embedding of `SparseMatrix.__init__(rows, cols)`: fixed dimensions, empty data
dictionary, no validation of the dimensions. -/
def SparseMatrix.construct (rows cols : Int) : SparseMatrix :=
  { rows := rows, cols := cols, data := [] }

/-- Embedding of `SparseMatrix.set(row, col, value)`: bounds check, then store a
non-zero value, or delete the key when the value is zero. -/
def SparseMatrix.set (m : SparseMatrix) (row col : Int) (value : ℚ) :
    Except MatrixError SparseMatrix :=
  if row < 0 ∨ col < 0 ∨ row ≥ m.rows ∨ col ≥ m.cols then
    .error .indexOutOfBounds
  else if value ≠ 0 then
    .ok { m with data := aset m.data (row, col) value }
  else
    .ok { m with data := adel m.data (row, col) }

/-- Embedding of `SparseMatrix.get(row, col)`: `self.data.get((row, col), 0)` —
no bounds check, defaults to zero. -/
def SparseMatrix.get (m : SparseMatrix) (row col : Int) : ℚ :=
  (alookup m.data (row, col)).getD 0

/-- Embedding of `SparseMatrix.items()`: the non-zero entries in insertion order. -/
def SparseMatrix.items (m : SparseMatrix) : List ((Int × Int) × ℚ) :=
  m.data

/-- Invariant I1 of the spec: every stored key is inside the declared
bounds. -/
def Bounded (m : SparseMatrix) : Prop :=
  ∀ e ∈ m.data, 0 ≤ e.1.1 ∧ e.1.1 < m.rows ∧ 0 ≤ e.1.2 ∧ e.1.2 < m.cols

/-- Invariant I2 of the spec: no stored value is exactly zero. -/
def NoZero (m : SparseMatrix) : Prop := ∀ e ∈ m.data, e.2 ≠ 0

/-- The data dictionary has no duplicate keys (true of every Python
`dict`). -/
def KeysNodup (m : SparseMatrix) : Prop := (m.data.map Prod.fst).Nodup

instance (m : SparseMatrix) : Decidable (Bounded m) :=
  List.decidableBAll _ m.data

instance (m : SparseMatrix) : Decidable (NoZero m) :=
  List.decidableBAll _ m.data

instance (m : SparseMatrix) : Decidable (KeysNodup m) :=
  List.nodupDecidable _

theorem set_ok_of_inbounds (m : SparseMatrix) (row col : Int) (v : ℚ)
    (h : ¬(row < 0 ∨ col < 0 ∨ row ≥ m.rows ∨ col ≥ m.cols)) :
    ∃ m', m.set row col v = .ok m' := by
  unfold SparseMatrix.set
  rw [if_neg h]
  by_cases hv : v ≠ 0
  · exact ⟨_, by rw [if_pos hv]⟩
  · exact ⟨_, by rw [if_neg hv]⟩

theorem set_error_iff (m : SparseMatrix) (row col : Int) (v : ℚ) (e : MatrixError) :
    m.set row col v = .error e ↔
      (row < 0 ∨ col < 0 ∨ row ≥ m.rows ∨ col ≥ m.cols) ∧ e = .indexOutOfBounds := by
  unfold SparseMatrix.set
  by_cases h : row < 0 ∨ col < 0 ∨ row ≥ m.rows ∨ col ≥ m.cols
  · rw [if_pos h]
    constructor
    · intro he
      exact ⟨h, (Except.error.inj he).symm⟩
    · rintro ⟨-, rfl⟩; rfl
  · rw [if_neg h]
    constructor
    · intro he
      by_cases hv : v ≠ 0 <;> simp [hv] at he
    · rintro ⟨hb, -⟩; exact absurd hb h

theorem set_ok_inbounds (m m' : SparseMatrix) (row col : Int) (v : ℚ)
    (h : m.set row col v = .ok m') :
    ¬(row < 0 ∨ col < 0 ∨ row ≥ m.rows ∨ col ≥ m.cols) := by
  intro hb
  unfold SparseMatrix.set at h
  rw [if_pos hb] at h
  cases h

theorem set_ok_shape (m m' : SparseMatrix) (row col : Int) (v : ℚ)
    (h : m.set row col v = .ok m') : m'.rows = m.rows ∧ m'.cols = m.cols := by
  unfold SparseMatrix.set at h
  by_cases hb : row < 0 ∨ col < 0 ∨ row ≥ m.rows ∨ col ≥ m.cols
  · rw [if_pos hb] at h; cases h
  · rw [if_neg hb] at h
    by_cases hv : v ≠ 0 <;> simp [hv] at h <;> simp [← h]

/-- The get-after-set law: a successful `set` makes `get` return the
written value at the written coordinate and leaves every other
coordinate's value unchanged (writing zero deletes, and `get` of a
missing key is zero, so the law is uniform in the value). -/
theorem set_ok_get (m m' : SparseMatrix) (row col : Int) (v : ℚ)
    (h : m.set row col v = .ok m') (r c : Int) :
    m'.get r c = if (r, c) = (row, col) then v else m.get r c := by
  have hb := set_ok_inbounds m m' row col v h
  unfold SparseMatrix.set at h
  rw [if_neg hb] at h
  by_cases hv : v ≠ 0
  · rw [if_pos hv] at h
    cases h
    unfold SparseMatrix.get
    simp only [alookup_aset]
    by_cases hk : (row, col) = (r, c)
    · rw [if_pos hk, if_pos hk.symm]; rfl
    · rw [if_neg hk, if_neg (fun hh => hk hh.symm)]
  · rw [if_neg hv] at h
    cases h
    push_neg at hv
    unfold SparseMatrix.get
    simp only [alookup_adel]
    by_cases hk : (row, col) = (r, c)
    · rw [if_pos hk, if_pos hk.symm, hv]; rfl
    · rw [if_neg hk, if_neg (fun hh => hk hh.symm)]

theorem set_ok_keys (m m' : SparseMatrix) (row col : Int) (v : ℚ)
    (h : m.set row col v = .ok m') (k : Int × Int)
    (hk : k ∈ m'.data.map Prod.fst) :
    k = (row, col) ∨ k ∈ m.data.map Prod.fst := by
  have hb := set_ok_inbounds m m' row col v h
  unfold SparseMatrix.set at h
  rw [if_neg hb] at h
  by_cases hv : v ≠ 0
  · rw [if_pos hv] at h
    cases h
    simp only [List.mem_map] at hk
    obtain ⟨e, he, rfl⟩ := hk
    rcases mem_aset _ _ _ _ he with h' | h'
    · exact Or.inr (List.mem_map.2 ⟨e, h', rfl⟩)
    · exact Or.inl (by rw [h'])
  · rw [if_neg hv] at h
    cases h
    simp only [List.mem_map] at hk
    obtain ⟨e, he, rfl⟩ := hk
    exact Or.inr (List.mem_map.2 ⟨e, mem_adel _ _ _ he, rfl⟩)

theorem set_ok_nozero (m m' : SparseMatrix) (row col : Int) (v : ℚ)
    (h : m.set row col v = .ok m') (hz : NoZero m) : NoZero m' := by
  have hb := set_ok_inbounds m m' row col v h
  unfold SparseMatrix.set at h
  rw [if_neg hb] at h
  by_cases hv : v ≠ 0
  · rw [if_pos hv] at h
    cases h
    intro e he
    rcases mem_aset _ _ _ _ he with h' | h'
    · exact hz e h'
    · rw [h']; exact hv
  · rw [if_neg hv] at h
    cases h
    intro e he
    exact hz e (mem_adel _ _ _ he)

theorem set_ok_nodup (m m' : SparseMatrix) (row col : Int) (v : ℚ)
    (h : m.set row col v = .ok m') (hnd : KeysNodup m) : KeysNodup m' := by
  have hb := set_ok_inbounds m m' row col v h
  unfold SparseMatrix.set at h
  rw [if_neg hb] at h
  by_cases hv : v ≠ 0
  · rw [if_pos hv] at h
    cases h
    exact aset_nodup _ _ _ hnd
  · rw [if_neg hv] at h
    cases h
    exact adel_nodup _ _ hnd

theorem set_ok_bounded (m m' : SparseMatrix) (row col : Int) (v : ℚ)
    (h : m.set row col v = .ok m') (hb : Bounded m) : Bounded m' := by
  have hib := set_ok_inbounds m m' row col v h
  push_neg at hib
  obtain ⟨h1, h2, h3, h4⟩ := hib
  have hsh := set_ok_shape m m' row col v h
  unfold SparseMatrix.set at h
  rw [if_neg (by push_neg; exact ⟨h1, h2, h3, h4⟩)] at h
  by_cases hv : v ≠ 0
  · rw [if_pos hv] at h
    cases h
    intro e he
    rcases mem_aset _ _ _ _ he with h' | h'
    · exact hb e h'
    · rw [h']
      exact ⟨h1, lt_of_not_ge (by simpa using h3), h2, lt_of_not_ge (by simpa using h4)⟩
  · rw [if_neg hv] at h
    cases h
    intro e he
    exact hb e (mem_adel _ _ _ he)

/-! ## `operations.py` -/

/-- Embedding of `check_dimensions(a, b, operation)` of `operations.py`. -/
def check_dimensions (a b : SparseMatrix) (operation : String) :
    Except MatrixError Unit :=
  if operation = "add" ∨ operation = "subtract" then
    if a.rows ≠ b.rows ∨ a.cols ≠ b.cols then .error .dimensionMismatch else .ok ()
  else if operation = "multiply" then
    if a.cols ≠ b.rows then .error .dimensionMismatch else .ok ()
  else
    .error .unknownOperation

/-- The first loop of `add`/`subtract`: `for (i, j), val in a.items():
result.set(i, j, val)`. -/
def setEntries (m : SparseMatrix) (l : List ((Int × Int) × ℚ)) :
    Except MatrixError SparseMatrix :=
  l.foldlM (fun r e => r.set e.1.1 e.1.2 e.2) m

/-- The second loop of `add`: `for (i, j), val in b.items():
result.set(i, j, result.get(i, j) + val)`. -/
def addEntries (m : SparseMatrix) (l : List ((Int × Int) × ℚ)) :
    Except MatrixError SparseMatrix :=
  l.foldlM (fun r e => r.set e.1.1 e.1.2 (r.get e.1.1 e.1.2 + e.2)) m

/-- The second loop of `subtract`: `for (i, j), val in b.items():
result.set(i, j, result.get(i, j) - val)`. -/
def subEntries (m : SparseMatrix) (l : List ((Int × Int) × ℚ)) :
    Except MatrixError SparseMatrix :=
  l.foldlM (fun r e => r.set e.1.1 e.1.2 (r.get e.1.1 e.1.2 - e.2)) m

/-- Embedding of `add(a, b)` of `operations.py`. -/
def add (a b : SparseMatrix) : Except MatrixError SparseMatrix := do
  check_dimensions a b "add"
  let result := SparseMatrix.construct a.rows a.cols
  let result ← setEntries result a.items
  addEntries result b.items

/-- Embedding of `subtract(a, b)` of `operations.py`. -/
def subtract (a b : SparseMatrix) : Except MatrixError SparseMatrix := do
  check_dimensions a b "subtract"
  let result := SparseMatrix.construct a.rows a.cols
  let result ← setEntries result a.items
  subEntries result b.items

/-- One iteration of the `b_cols` construction of `multiply`:
`if row not in b_cols: b_cols[row] = {}` followed by
`b_cols[row][col] = val`. -/
def bcolsStep (bc : List (Int × List (Int × ℚ))) (e : (Int × Int) × ℚ) :
    List (Int × List (Int × ℚ)) :=
  aset bc e.1.1 (aset ((alookup bc e.1.1).getD []) e.1.2 e.2)

/-- The `b_cols` construction of `multiply`: group `b.items()` by row
index into a dictionary of per-row column dictionaries. -/
def buildBCols (bdata : List ((Int × Int) × ℚ)) : List (Int × List (Int × ℚ)) :=
  bdata.foldl bcolsStep []

/-- The inner loop of `multiply`: `for j, val_b in b_cols[k].items():
result.set(i, j, result.get(i, j) + val_a * val_b)`. -/
def mulRow (i : Int) (val_a : ℚ) (inner : List (Int × ℚ)) (r : SparseMatrix) :
    Except MatrixError SparseMatrix :=
  inner.foldlM (fun r e => r.set i e.1 (r.get i e.1 + val_a * e.2)) r

/-- The outer loop of `multiply` over `a.items()`, skipping entries whose
column index has no matching non-zero row in `b`. -/
def mulLoop (b_cols : List (Int × List (Int × ℚ))) (r : SparseMatrix)
    (l : List ((Int × Int) × ℚ)) : Except MatrixError SparseMatrix :=
  l.foldlM (fun r e =>
    match alookup b_cols e.1.2 with
    | none => pure r
    | some inner => mulRow e.1.1 e.2 inner r) r

/-- Embedding of `multiply(a, b)` of `operations.py`. -/
def multiply (a b : SparseMatrix) : Except MatrixError SparseMatrix := do
  check_dimensions a b "multiply"
  let result := SparseMatrix.construct a.rows b.cols
  let b_cols := buildBCols b.items
  mulLoop b_cols result a.items

theorem except_bind_ok {ε α β : Type} (a : α) (f : α → Except ε β) :
    (Except.ok a >>= f) = f a := rfl

theorem except_bind_err {ε α β : Type} (e : ε) (f : α → Except ε β) :
    ((Except.error e : Except ε α) >>= f) = Except.error e := rfl

theorem except_pure_eq {ε α : Type} (a : α) :
    (pure a : Except ε α) = Except.ok a := rfl

theorem check_dimensions_add (a b : SparseMatrix) :
    check_dimensions a b "add" =
      if a.rows ≠ b.rows ∨ a.cols ≠ b.cols then .error .dimensionMismatch
      else .ok () := by
  simp [check_dimensions]

theorem check_dimensions_subtract (a b : SparseMatrix) :
    check_dimensions a b "subtract" =
      if a.rows ≠ b.rows ∨ a.cols ≠ b.cols then .error .dimensionMismatch
      else .ok () := by
  simp [check_dimensions]

theorem check_dimensions_multiply (a b : SparseMatrix) :
    check_dimensions a b "multiply" =
      if a.cols ≠ b.rows then .error .dimensionMismatch else .ok () := by
  simp [check_dimensions]

/-- A property preserved by every successful step of a `foldlM` over
`Except` is preserved by the whole fold. -/
theorem foldlM_preserve {ε α β : Type} (f : β → α → Except ε β) (P : β → Prop)
    (hf : ∀ r e r', f r e = .ok r' → P r → P r') :
    ∀ (l : List α) (r r' : β), List.foldlM f r l = .ok r' → P r → P r' := by
  intro l
  induction l with
  | nil =>
    intro r r' h hp
    rw [List.foldlM_nil] at h
    cases h
    exact hp
  | cons e rest ih =>
    intro r r' h hp
    rw [List.foldlM_cons] at h
    cases hstep : f r e with
    | error err => rw [hstep, except_bind_err] at h; cases h
    | ok r1 =>
      rw [hstep, except_bind_ok] at h
      exact ih r1 r' h (hf r e r1 hstep hp)

/-- Every error of a `foldlM` over `Except` is an error of one of its
steps. -/
theorem foldlM_error {ε α β : Type} (f : β → α → Except ε β) (P : ε → Prop)
    (hf : ∀ r e err, f r e = .error err → P err) :
    ∀ (l : List α) (r : β) (err : ε), List.foldlM f r l = .error err → P err := by
  intro l
  induction l with
  | nil =>
    intro r err h
    rw [List.foldlM_nil] at h
    cases h
  | cons e rest ih =>
    intro r err h
    rw [List.foldlM_cons] at h
    cases hstep : f r e with
    | error e' =>
      rw [hstep, except_bind_err] at h
      cases h
      exact hf r e err hstep
    | ok r1 =>
      rw [hstep, except_bind_ok] at h
      exact ih r1 err h

theorem not_oob_of_inbounds (rows cols row col : Int)
    (h1 : 0 ≤ row) (h2 : row < rows) (h3 : 0 ≤ col) (h4 : col < cols) :
    ¬(row < 0 ∨ col < 0 ∨ row ≥ rows ∨ col ≥ cols) := by
  push_neg
  exact ⟨h1, h3, h2, h4⟩

/-- Common shape of the entry loops of `add` and `subtract`: write
`g (result.get i j) val` at each entry `(i, j, val)` of the iterated
list (`g` is "ignore and overwrite", `+` or `-`). -/
def accEntries (g : ℚ → ℚ → ℚ) (m : SparseMatrix)
    (l : List ((Int × Int) × ℚ)) : Except MatrixError SparseMatrix :=
  l.foldlM (fun r e => r.set e.1.1 e.1.2 (g (r.get e.1.1 e.1.2) e.2)) m

theorem setEntries_eq (m : SparseMatrix) (l : List ((Int × Int) × ℚ)) :
    setEntries m l = accEntries (fun _ v => v) m l := rfl

theorem addEntries_eq (m : SparseMatrix) (l : List ((Int × Int) × ℚ)) :
    addEntries m l = accEntries (fun x v => x + v) m l := rfl

theorem subEntries_eq (m : SparseMatrix) (l : List ((Int × Int) × ℚ)) :
    subEntries m l = accEntries (fun x v => x - v) m l := rfl

/-- Running an entry loop over a duplicate-free in-bounds entry list
succeeds and combines each listed value into the previous contents via
`g`, leaving unlisted coordinates untouched. -/
theorem accEntries_ok (g : ℚ → ℚ → ℚ) :
    ∀ (l : List ((Int × Int) × ℚ)) (m : SparseMatrix),
      (∀ e ∈ l, 0 ≤ e.1.1 ∧ e.1.1 < m.rows ∧ 0 ≤ e.1.2 ∧ e.1.2 < m.cols) →
      (l.map Prod.fst).Nodup →
      ∃ m', accEntries g m l = .ok m' ∧ m'.rows = m.rows ∧ m'.cols = m.cols ∧
        ∀ r c, m'.get r c =
          ((alookup l (r, c)).map (g (m.get r c))).getD (m.get r c) := by
  intro l
  induction l with
  | nil =>
    intro m hb hnd
    exact ⟨m, rfl, rfl, rfl, fun r c => by simp⟩
  | cons e rest ih =>
    intro m hb hnd
    simp only [List.map_cons, List.nodup_cons] at hnd
    have hbe := hb e (List.mem_cons_self e rest)
    have hnoob := not_oob_of_inbounds m.rows m.cols e.1.1 e.1.2
      hbe.1 hbe.2.1 hbe.2.2.1 hbe.2.2.2
    obtain ⟨m1, hset⟩ :=
      set_ok_of_inbounds m e.1.1 e.1.2 (g (m.get e.1.1 e.1.2) e.2) hnoob
    have hsh := set_ok_shape _ _ _ _ _ hset
    have hget1 := set_ok_get _ _ _ _ _ hset
    obtain ⟨m', hrun, hr, hc, hget⟩ := ih m1
      (fun e' he' => by
        rw [hsh.1, hsh.2]
        exact hb e' (List.mem_cons_of_mem e he'))
      hnd.2
    refine ⟨m', ?_, hr.trans hsh.1, hc.trans hsh.2, ?_⟩
    · unfold accEntries
      simp only [List.foldlM_cons]
      rw [hset, except_bind_ok]
      exact hrun
    · intro r c
      rw [hget r c, alookup_cons]
      by_cases hk : e.1 = (r, c)
      · rw [if_pos hk]
        have hmem : (r, c) ∉ rest.map Prod.fst := by rw [← hk]; exact hnd.1
        have hn : alookup rest (r, c) = none := (alookup_eq_none_iff _ _).2 hmem
        have hrc : (r, c) = (e.1.1, e.1.2) := by rw [← hk]
        have hm1 : m1.get r c = g (m.get e.1.1 e.1.2) e.2 := by
          rw [hget1 r c, if_pos hrc]
        have h1 : e.1.1 = r := by rw [hk]
        have h2 : e.1.2 = c := by rw [hk]
        rw [hn, hm1, h1, h2]
        simp
      · have hrc : ¬ (r, c) = (e.1.1, e.1.2) := by
          intro hh
          exact hk (by rw [hh])
        rw [if_neg hk]
        have hm1 : m1.get r c = m.get r c := by rw [hget1 r c, if_neg hrc]
        rw [hm1]

/-- The entry loops preserve the key invariants of the matrix being
built: shape, absence of zero values, duplicate-free keys, in-bounds
keys. -/
theorem accEntries_invariants (g : ℚ → ℚ → ℚ)
    (l : List ((Int × Int) × ℚ)) (m m' : SparseMatrix)
    (h : accEntries g m l = .ok m') :
    (NoZero m → NoZero m') ∧ (KeysNodup m → KeysNodup m') ∧
      (Bounded m → Bounded m') := by
  refine ⟨?_, ?_, ?_⟩
  · exact fun hz => foldlM_preserve _ NoZero
      (fun r e r' hs => set_ok_nozero r r' e.1.1 e.1.2 _ hs) l m m' h hz
  · exact fun hz => foldlM_preserve _ KeysNodup
      (fun r e r' hs => set_ok_nodup r r' e.1.1 e.1.2 _ hs) l m m' h hz
  · exact fun hz => foldlM_preserve _ Bounded
      (fun r e r' hs => set_ok_bounded r r' e.1.1 e.1.2 _ hs) l m m' h hz

/-- Functional correctness of `add`: on same-shape well-formed inputs it
succeeds and the result reads back as the entrywise sum. -/
theorem add_spec (a b : SparseMatrix)
    (hdim : a.rows = b.rows ∧ a.cols = b.cols)
    (hba : Bounded a) (hnda : KeysNodup a)
    (hbb : Bounded b) (hndb : KeysNodup b) :
    ∃ r, add a b = .ok r ∧ r.rows = a.rows ∧ r.cols = a.cols ∧
      ∀ i j, r.get i j = a.get i j + b.get i j := by
  have hchk : check_dimensions a b "add" = .ok () := by
    rw [check_dimensions_add, if_neg (by push_neg; exact hdim)]
  obtain ⟨m1, hrun1, hr1, hc1, hget1⟩ :=
    accEntries_ok (fun _ v => v) a.data (SparseMatrix.construct a.rows a.cols)
      (fun e he => hba e he) hnda
  obtain ⟨m2, hrun2, hr2, hc2, hget2⟩ :=
    accEntries_ok (fun x v => x + v) b.data m1
      (fun e he => by
        rw [hr1, hc1]
        show 0 ≤ e.1.1 ∧ e.1.1 < a.rows ∧ 0 ≤ e.1.2 ∧ e.1.2 < a.cols
        rw [hdim.1, hdim.2]
        exact hbb e he) hndb
  have hm1get : ∀ i j, m1.get i j = a.get i j := by
    intro i j
    rw [hget1 i j]
    show ((alookup a.data (i, j)).map _).getD _ = _
    unfold SparseMatrix.get SparseMatrix.construct
    cases alookup a.data (i, j) <;> simp
  refine ⟨m2, ?_, hr2.trans hr1, hc2.trans hc1, ?_⟩
  · show add a b = .ok m2
    unfold add
    rw [hchk, except_bind_ok]
    have h1 : setEntries (SparseMatrix.construct a.rows a.cols) a.items = .ok m1 := by
      rw [setEntries_eq]
      exact hrun1
    show (setEntries (SparseMatrix.construct a.rows a.cols) a.items >>=
      fun result => addEntries result b.items) = Except.ok m2
    rw [h1, except_bind_ok, addEntries_eq]
    exact hrun2
  · intro i j
    rw [hget2 i j, hm1get i j]
    show ((alookup b.data (i, j)).map _).getD _ = _
    unfold SparseMatrix.get
    cases alookup b.data (i, j) <;> simp

/-- Functional correctness of `subtract`: entrywise difference. -/
theorem subtract_spec (a b : SparseMatrix)
    (hdim : a.rows = b.rows ∧ a.cols = b.cols)
    (hba : Bounded a) (hnda : KeysNodup a)
    (hbb : Bounded b) (hndb : KeysNodup b) :
    ∃ r, subtract a b = .ok r ∧ r.rows = a.rows ∧ r.cols = a.cols ∧
      ∀ i j, r.get i j = a.get i j - b.get i j := by
  have hchk : check_dimensions a b "subtract" = .ok () := by
    rw [check_dimensions_subtract, if_neg (by push_neg; exact hdim)]
  obtain ⟨m1, hrun1, hr1, hc1, hget1⟩ :=
    accEntries_ok (fun _ v => v) a.data (SparseMatrix.construct a.rows a.cols)
      (fun e he => hba e he) hnda
  obtain ⟨m2, hrun2, hr2, hc2, hget2⟩ :=
    accEntries_ok (fun x v => x - v) b.data m1
      (fun e he => by
        rw [hr1, hc1]
        show 0 ≤ e.1.1 ∧ e.1.1 < a.rows ∧ 0 ≤ e.1.2 ∧ e.1.2 < a.cols
        rw [hdim.1, hdim.2]
        exact hbb e he) hndb
  have hm1get : ∀ i j, m1.get i j = a.get i j := by
    intro i j
    rw [hget1 i j]
    show ((alookup a.data (i, j)).map _).getD _ = _
    unfold SparseMatrix.get SparseMatrix.construct
    cases alookup a.data (i, j) <;> simp
  refine ⟨m2, ?_, hr2.trans hr1, hc2.trans hc1, ?_⟩
  · show subtract a b = .ok m2
    unfold subtract
    rw [hchk, except_bind_ok]
    have h1 : setEntries (SparseMatrix.construct a.rows a.cols) a.items = .ok m1 := by
      rw [setEntries_eq]
      exact hrun1
    show (setEntries (SparseMatrix.construct a.rows a.cols) a.items >>=
      fun result => subEntries result b.items) = Except.ok m2
    rw [h1, except_bind_ok, subEntries_eq]
    exact hrun2
  · intro i j
    rw [hget2 i j, hm1get i j]
    show ((alookup b.data (i, j)).map _).getD _ = _
    unfold SparseMatrix.get
    cases alookup b.data (i, j) <;> simp

theorem mem_of_alookup {κ : Type} [DecidableEq κ] {β : Type}
    (l : List (κ × β)) (k : κ) (v : β) (h : alookup l k = some v) :
    (k, v) ∈ l := by
  induction l with
  | nil => cases h
  | cons e rest ih =>
    rw [alookup_cons] at h
    by_cases he : e.1 = k
    · rw [if_pos he] at h
      cases h
      exact he ▸ List.mem_cons_self e rest
    · rw [if_neg he] at h
      exact List.mem_cons_of_mem e (ih h)

/-- Two-level lookup in the auxiliary `b_cols` structure:
`b_cols[k][j]` when both keys are present. -/
def lookup2 (bc : List (Int × List (Int × ℚ))) (k j : Int) : Option ℚ :=
  match alookup bc k with
  | none => none
  | some inner => alookup inner j

theorem lookup2_bcolsStep (bc : List (Int × List (Int × ℚ)))
    (e : (Int × Int) × ℚ) (k j : Int) :
    lookup2 (bcolsStep bc e) k j =
      if (k, j) = (e.1.1, e.1.2) then some e.2 else lookup2 bc k j := by
  unfold lookup2 bcolsStep
  rw [alookup_aset]
  by_cases hk : e.1.1 = k
  · simp only [if_pos hk]
    rw [alookup_aset]
    by_cases hj : e.1.2 = j
    · rw [if_pos hj, if_pos (by rw [hk, hj])]
    · rw [if_neg hj, if_neg (fun hh => hj (congrArg Prod.snd hh).symm)]
      rw [← hk]
      cases alookup bc e.1.1 <;> rfl
  · rw [if_neg hk, if_neg (fun hh => hk (congrArg Prod.fst hh).symm)]

theorem buildBCols_fold (l : List ((Int × Int) × ℚ)) :
    ∀ bc, (l.map Prod.fst).Nodup → ∀ k j,
      lookup2 (l.foldl bcolsStep bc) k j =
        if (k, j) ∈ l.map Prod.fst then alookup l (k, j) else lookup2 bc k j := by
  induction l with
  | nil => intro bc _ k j; simp
  | cons e rest ih =>
    intro bc hnd k j
    simp only [List.map_cons, List.nodup_cons] at hnd
    rw [List.foldl_cons, ih (bcolsStep bc e) hnd.2 k j]
    by_cases hm : (k, j) ∈ rest.map Prod.fst
    · rw [if_pos hm, if_pos (by simp [hm]), alookup_cons,
        if_neg (fun hh : e.1 = (k, j) => hnd.1 (hh ▸ hm))]
    · rw [if_neg hm, lookup2_bcolsStep]
      by_cases hk : (k, j) = (e.1.1, e.1.2)
      · have hk' : e.1 = (k, j) := by rw [hk]
        rw [if_pos hk, if_pos (by simp [hk'.symm]), alookup_cons, if_pos hk']
      · have hk' : ¬ e.1 = (k, j) := fun hh => hk (by rw [← hh])
        rw [if_neg hk, if_neg (by
          simp only [List.map_cons, List.mem_cons]
          push_neg
          exact ⟨fun hh => hk' hh.symm, hm⟩)]

theorem buildBCols_inner_nodup (l : List ((Int × Int) × ℚ)) :
    ∀ bc, (∀ k i, alookup bc k = some i → (i.map Prod.fst).Nodup) →
      ∀ k i, alookup (l.foldl bcolsStep bc) k = some i → (i.map Prod.fst).Nodup := by
  induction l with
  | nil => intro bc hbc; exact hbc
  | cons e rest ih =>
    intro bc hbc
    rw [List.foldl_cons]
    refine ih (bcolsStep bc e) ?_
    intro k i hi
    unfold bcolsStep at hi
    rw [alookup_aset] at hi
    by_cases hk : e.1.1 = k
    · rw [if_pos hk] at hi
      cases hi
      refine aset_nodup _ _ _ ?_
      cases halo : alookup bc e.1.1 with
      | none => simp [halo]
      | some i0 => simpa [halo] using hbc e.1.1 i0 halo
    · rw [if_neg hk] at hi
      exact hbc k i hi

/-- The inner loop of `multiply` accumulates `val_a * val_b` into row `i`
of the result for every column of the given `b` row, touching nothing
else. -/
theorem mulRow_ok (i : Int) (va : ℚ) (inner : List (Int × ℚ)) :
    ∀ (r : SparseMatrix), 0 ≤ i → i < r.rows →
      (∀ e ∈ inner, 0 ≤ e.1 ∧ e.1 < r.cols) → (inner.map Prod.fst).Nodup →
      ∃ r', mulRow i va inner r = .ok r' ∧ r'.rows = r.rows ∧ r'.cols = r.cols ∧
        ∀ x y, r'.get x y =
          r.get x y + (if x = i then va * (alookup inner y).getD 0 else 0) := by
  induction inner with
  | nil =>
    intro r _ _ _ _
    exact ⟨r, rfl, rfl, rfl, fun x y => by simp⟩
  | cons e rest ih =>
    intro r hi0 hir hb hnd
    simp only [List.map_cons, List.nodup_cons] at hnd
    have hbe := hb e (List.mem_cons_self e rest)
    have hnoob := not_oob_of_inbounds r.rows r.cols i e.1 hi0 hir hbe.1 hbe.2
    obtain ⟨r1, hset⟩ :=
      set_ok_of_inbounds r i e.1 (r.get i e.1 + va * e.2) hnoob
    have hsh := set_ok_shape _ _ _ _ _ hset
    have hget1 := set_ok_get _ _ _ _ _ hset
    obtain ⟨r', hrun, hr, hc, hget⟩ := ih r1 hi0 (hsh.1 ▸ hir)
      (fun e' he' => by rw [hsh.2]; exact hb e' (List.mem_cons_of_mem e he'))
      hnd.2
    refine ⟨r', ?_, hr.trans hsh.1, hc.trans hsh.2, ?_⟩
    · unfold mulRow
      simp only [List.foldlM_cons]
      rw [hset, except_bind_ok]
      exact hrun
    · intro x y
      rw [hget x y, alookup_cons]
      by_cases hx : x = i
      · by_cases hy : e.1 = y
        · have hxy : (x, y) = (i, e.1) := by rw [hx, hy]
          have hn : alookup rest y = none :=
            (alookup_eq_none_iff _ _).2 (hy ▸ hnd.1)
          rw [if_pos hy, hget1 x y, if_pos hxy, hn]
          have hie : r.get i e.1 = r.get x y := by rw [hx, hy]
          simp [hx, hie]
        · have hxy : ¬ (x, y) = (i, e.1) := fun hh =>
            hy (congrArg Prod.snd hh).symm
          rw [if_neg hy, hget1 x y, if_neg hxy]
      · have hxy : ¬ (x, y) = (i, e.1) := fun hh => hx (congrArg Prod.fst hh)
        rw [hget1 x y, if_neg hxy, if_neg hx, if_neg hx]

/-- The outer loop of `multiply`: the result accumulates, for each entry
`(i, k, v_a)` of `a` processed so far, the contribution
`v_a * b_cols[k][j]` at `(i, j)`. -/
theorem mulLoop_ok (bc : List (Int × List (Int × ℚ)))
    (hnd : ∀ k i, alookup bc k = some i → (i.map Prod.fst).Nodup) :
    ∀ (l : List ((Int × Int) × ℚ)) (r : SparseMatrix),
      (∀ e ∈ l, 0 ≤ e.1.1 ∧ e.1.1 < r.rows) →
      (∀ k i, alookup bc k = some i → ∀ e ∈ i, 0 ≤ e.1 ∧ e.1 < r.cols) →
      ∃ r', mulLoop bc r l = .ok r' ∧ r'.rows = r.rows ∧ r'.cols = r.cols ∧
        ∀ x y, r'.get x y = r.get x y +
          (l.map (fun e =>
            if x = e.1.1 then e.2 * (lookup2 bc e.1.2 y).getD 0 else 0)).sum := by
  intro l
  induction l with
  | nil =>
    intro r _ _
    exact ⟨r, rfl, rfl, rfl, fun x y => by simp⟩
  | cons e rest ih =>
    intro r hrow hib
    have hre := hrow e (List.mem_cons_self e rest)
    cases halo : alookup bc e.1.2 with
    | none =>
      obtain ⟨r', hrun, hr, hc, hget⟩ := ih r
        (fun e' he' => hrow e' (List.mem_cons_of_mem e he')) hib
      refine ⟨r', ?_, hr, hc, ?_⟩
      · unfold mulLoop
        simp only [List.foldlM_cons, halo]
        exact hrun
      · intro x y
        rw [hget x y, List.map_cons, List.sum_cons]
        have : lookup2 bc e.1.2 y = none := by unfold lookup2; rw [halo]
        simp [this]
    | some inner =>
      obtain ⟨r1, hrun1, hr1, hc1, hget1⟩ :=
        mulRow_ok e.1.1 e.2 inner r hre.1 hre.2
          (fun e' he' => hib e.1.2 inner halo e' he') (hnd e.1.2 inner halo)
      obtain ⟨r', hrun, hr, hc, hget⟩ := ih r1
        (fun e' he' => by
          rw [hr1]
          exact hrow e' (List.mem_cons_of_mem e he'))
        (fun k i hi e' he' => by
          rw [hc1]
          exact hib k i hi e' he')
      refine ⟨r', ?_, hr.trans hr1, hc.trans hc1, ?_⟩
      · unfold mulLoop
        simp only [List.foldlM_cons, halo]
        rw [hrun1, except_bind_ok]
        exact hrun
      · intro x y
        rw [hget x y, hget1 x y, List.map_cons, List.sum_cons]
        have hl2 : lookup2 bc e.1.2 y = alookup inner y := by
          unfold lookup2
          rw [halo]
        rw [hl2, add_assoc]

/-- Converting the per-entry contribution sum over a row-duplicate-free,
in-bounds entry list into a sum over the full column range: absent
columns contribute the default value zero. -/
theorem rowsum_list_eq (cols : Int) (g : Int → ℚ) (x : Int) :
    ∀ (l : List ((Int × Int) × ℚ)), (l.map Prod.fst).Nodup →
      (∀ e ∈ l, 0 ≤ e.1.2 ∧ e.1.2 < cols) →
      (l.map (fun e => if x = e.1.1 then e.2 * g e.1.2 else 0)).sum =
        Finset.sum (Finset.Ico 0 cols)
          (fun k => (alookup l (x, k)).getD 0 * g k) := by
  intro l
  induction l with
  | nil => simp
  | cons e rest ih =>
    intro hnd hb
    simp only [List.map_cons, List.nodup_cons] at hnd
    have hbe := hb e (List.mem_cons_self e rest)
    rw [List.map_cons, List.sum_cons,
      ih hnd.2 (fun e' he' => hb e' (List.mem_cons_of_mem e he'))]
    by_cases hx : x = e.1.1
    · have hc0 : e.1.2 ∈ Finset.Ico (0 : ℤ) cols := by
        rw [Finset.mem_Ico]
        exact hbe
      have hrest0 : (alookup rest (x, e.1.2)).getD 0 * g e.1.2 = 0 := by
        have : (x, e.1.2) ∉ rest.map Prod.fst := by
          rw [hx]
          exact hnd.1
        rw [(alookup_eq_none_iff _ _).2 this]
        simp
      rw [← Finset.add_sum_erase _ _ hc0, ← Finset.add_sum_erase _ _ hc0]
      have hhead : alookup (e :: rest) (x, e.1.2) = some e.2 := by
        rw [alookup_cons, if_pos (by rw [hx])]
      rw [hhead]
      have herase : ∀ k ∈ (Finset.Ico (0 : ℤ) cols).erase e.1.2,
          (alookup (e :: rest) (x, k)).getD 0 * g k =
            (alookup rest (x, k)).getD 0 * g k := by
        intro k hk
        have hkne : k ≠ e.1.2 := (Finset.mem_erase.1 hk).1
        rw [alookup_cons, if_neg (fun hh : e.1 = (x, k) =>
          hkne (congrArg Prod.snd hh).symm)]
      rw [Finset.sum_congr rfl herase, if_pos hx]
      rw [hrest0, zero_add]
      simp
    · rw [if_neg hx, zero_add]
      refine Finset.sum_congr rfl ?_
      intro k _
      rw [alookup_cons, if_neg (fun hh : e.1 = (x, k) =>
        hx (congrArg Prod.fst hh).symm)]

/-- Functional correctness of `multiply`: on compatible well-formed inputs
it succeeds with shape `(a.rows, b.cols)` and each result value is the
inner-product sum over the shared dimension. -/
theorem multiply_spec (a b : SparseMatrix) (hdim : a.cols = b.rows)
    (hba : Bounded a) (hnda : KeysNodup a)
    (hbb : Bounded b) (hndb : KeysNodup b) :
    ∃ r, multiply a b = .ok r ∧ r.rows = a.rows ∧ r.cols = b.cols ∧
      ∀ i j, r.get i j = Finset.sum (Finset.Ico (0 : ℤ) a.cols)
        (fun k => a.get i k * b.get k j) := by
  have hchk : check_dimensions a b "multiply" = .ok () := by
    rw [check_dimensions_multiply, if_neg (not_not_intro hdim)]
  have hinnd : ∀ k i, alookup (buildBCols b.data) k = some i →
      (i.map Prod.fst).Nodup := by
    refine buildBCols_inner_nodup b.data [] ?_
    intro k i hi
    cases hi
  have hl2 : ∀ k j, lookup2 (buildBCols b.data) k j =
      if (k, j) ∈ b.data.map Prod.fst then alookup b.data (k, j) else none :=
    buildBCols_fold b.data [] hndb
  have hgetb : ∀ k y, (lookup2 (buildBCols b.data) k y).getD 0 = b.get k y := by
    intro k y
    rw [hl2 k y]
    by_cases hm : (k, y) ∈ b.data.map Prod.fst
    · rw [if_pos hm]
      rfl
    · rw [if_neg hm]
      unfold SparseMatrix.get
      rw [(alookup_eq_none_iff _ _).2 hm]
  have hinb : ∀ k i, alookup (buildBCols b.data) k = some i →
      ∀ e ∈ i, 0 ≤ e.1 ∧ e.1 < (SparseMatrix.construct a.rows b.cols).cols := by
    intro k i hi e he
    obtain ⟨v', hv'⟩ :=
      alookup_isSome_of_mem i e.1 (List.mem_map.2 ⟨e, he, rfl⟩)
    have hlk : lookup2 (buildBCols b.data) k e.1 = some v' := by
      unfold lookup2
      rw [hi]
      exact hv'
    rw [hl2 k e.1] at hlk
    by_cases hm : (k, e.1) ∈ b.data.map Prod.fst
    · rw [if_pos hm] at hlk
      have hmem := hbb _ (mem_of_alookup _ _ _ hlk)
      exact ⟨hmem.2.2.1, hmem.2.2.2⟩
    · rw [if_neg hm] at hlk
      cases hlk
  have hrow : ∀ e ∈ a.data,
      0 ≤ e.1.1 ∧ e.1.1 < (SparseMatrix.construct a.rows b.cols).rows := by
    intro e he
    exact ⟨(hba e he).1, (hba e he).2.1⟩
  obtain ⟨r', hrun, hr, hc, hget⟩ :=
    mulLoop_ok (buildBCols b.data) hinnd a.data
      (SparseMatrix.construct a.rows b.cols) hrow hinb
  refine ⟨r', ?_, hr, hc, ?_⟩
  · unfold multiply
    rw [hchk, except_bind_ok]
    exact hrun
  · intro i j
    rw [hget i j]
    have hfun : (fun e : (Int × Int) × ℚ =>
        if i = e.1.1 then e.2 * (lookup2 (buildBCols b.data) e.1.2 j).getD 0
        else 0) =
        (fun e => if i = e.1.1 then e.2 * b.get e.1.2 j else 0) :=
      funext fun e => by rw [hgetb]
    rw [hfun, rowsum_list_eq a.cols (fun k => b.get k j) i a.data hnda
      (fun e he => ⟨(hba e he).2.2.1, (hba e he).2.2.2⟩)]
    have hzero : (SparseMatrix.construct a.rows b.cols).get i j = 0 := rfl
    rw [hzero, zero_add]
    rfl

/-! ## A heap model of the operations

The pure embedding above cannot talk about object identity, so the
claims about mutation and aliasing are settled against a second, heap
passing embedding of the same Python functions: matrix objects carry a
reference into a heap of data dictionaries, `set`/`get` read and write
through the reference, and each operation allocates its result dictionary
at a fresh reference (as `SparseMatrix(...)` does) before running exactly
the loops of `operations.py`. -/

/-- The heap: data dictionaries addressed by allocation index. -/
abbrev MatHeap : Type := List (List ((Int × Int) × ℚ))

/-- A Python `SparseMatrix` object: its immutable `rows`/`cols`
attributes and the heap reference of its `data` dictionary. -/
structure MatObj where
  rows : Int
  cols : Int
  ref : Nat
deriving DecidableEq, Repr

/-- Dereference a data dictionary. -/
def heapRead (σ : MatHeap) (i : Nat) : List ((Int × Int) × ℚ) :=
  (σ[i]?).getD []

/-- Overwrite a data dictionary in place. -/
def heapWrite (σ : MatHeap) (i : Nat) (d : List ((Int × Int) × ℚ)) : MatHeap :=
  List.set σ i d

/-- Version of `SparseMatrix.set` acting on the heap: on a bounds violation it
raises without touching the heap; otherwise it mutates only the object's
own dictionary. -/
def heapMSet (σ : MatHeap) (m : MatObj) (row col : Int) (v : ℚ) :
    MatHeap × Option MatrixError :=
  if row < 0 ∨ col < 0 ∨ row ≥ m.rows ∨ col ≥ m.cols then
    (σ, some .indexOutOfBounds)
  else if v ≠ 0 then
    (heapWrite σ m.ref (aset (heapRead σ m.ref) (row, col) v), none)
  else
    (heapWrite σ m.ref (adel (heapRead σ m.ref) (row, col)), none)

/-- Version of `SparseMatrix.get` acting on the heap. -/
def heapGet (σ : MatHeap) (m : MatObj) (row col : Int) : ℚ :=
  (alookup (heapRead σ m.ref) (row, col)).getD 0

/-- A Python `for` loop whose body may raise: threads the heap through
the steps and stops at the first raised error, keeping the heap state at
the moment of the raise. -/
def setLoop {α : Type} (f : MatHeap → α → MatHeap × Option MatrixError) :
    MatHeap → List α → MatHeap × Option MatrixError
  | σ, [] => (σ, none)
  | σ, x :: rest =>
    match (f σ x).2 with
    | none => setLoop f (f σ x).1 rest
    | some e => ((f σ x).1, some e)

/-- The two loops of `add` (`op` `+`) and `subtract` (`op` `-`), run on a
result object `R` whose dictionary was freshly allocated. -/
def heapAccLoops (op : ℚ → ℚ → ℚ) (σ1 : MatHeap) (R : MatObj)
    (aref bref : Nat) : MatHeap × Except MatrixError MatObj :=
  let out1 := setLoop (fun σ e => heapMSet σ R e.1.1 e.1.2 e.2) σ1
    (heapRead σ1 aref)
  match out1.2 with
  | some e => (out1.1, .error e)
  | none =>
    let out2 := setLoop
      (fun σ e => heapMSet σ R e.1.1 e.1.2 (op (heapGet σ R e.1.1 e.1.2) e.2))
      out1.1 (heapRead out1.1 bref)
    match out2.2 with
    | some e => (out2.1, .error e)
    | none => (out2.1, .ok R)

/-- Embedding of `add(a, b)` in the heap model. -/
def heapAdd (σ : MatHeap) (A B : MatObj) : MatHeap × Except MatrixError MatObj :=
  if A.rows ≠ B.rows ∨ A.cols ≠ B.cols then (σ, .error .dimensionMismatch)
  else heapAccLoops (fun x v => x + v) (σ ++ [[]])
    ⟨A.rows, A.cols, σ.length⟩ A.ref B.ref

/-- Embedding of `subtract(a, b)` in the heap model. -/
def heapSubtract (σ : MatHeap) (A B : MatObj) :
    MatHeap × Except MatrixError MatObj :=
  if A.rows ≠ B.rows ∨ A.cols ≠ B.cols then (σ, .error .dimensionMismatch)
  else heapAccLoops (fun x v => x - v) (σ ++ [[]])
    ⟨A.rows, A.cols, σ.length⟩ A.ref B.ref

/-- The nested loops of `multiply` in the heap model. -/
def heapMulLoops (σ1 : MatHeap) (R : MatObj) (aref bref : Nat) :
    MatHeap × Except MatrixError MatObj :=
  let b_cols := buildBCols (heapRead σ1 bref)
  let out := setLoop (fun σ e =>
    match alookup b_cols e.1.2 with
    | none => (σ, none)
    | some inner => setLoop (fun σ e2 =>
        heapMSet σ R e.1.1 e2.1 (heapGet σ R e.1.1 e2.1 + e.2 * e2.2)) σ inner)
    σ1 (heapRead σ1 aref)
  match out.2 with
  | some e => (out.1, .error e)
  | none => (out.1, .ok R)

/-- Embedding of `multiply(a, b)` in the heap model. -/
def heapMultiply (σ : MatHeap) (A B : MatObj) :
    MatHeap × Except MatrixError MatObj :=
  if A.cols ≠ B.rows then (σ, .error .dimensionMismatch)
  else heapMulLoops (σ ++ [[]]) ⟨A.rows, B.cols, σ.length⟩ A.ref B.ref

theorem heapMSet_frame (σ : MatHeap) (m : MatObj) (row col : Int) (v : ℚ)
    (i : Nat) (hi : i ≠ m.ref) :
    ((heapMSet σ m row col v).1)[i]? = σ[i]? := by
  unfold heapMSet heapWrite
  by_cases hb : row < 0 ∨ col < 0 ∨ row ≥ m.rows ∨ col ≥ m.cols
  · rw [if_pos hb]
  · rw [if_neg hb]
    by_cases hv : v ≠ 0
    · rw [if_pos hv]
      exact List.getElem?_set_ne (fun hh => hi hh.symm)
    · rw [if_neg hv]
      exact List.getElem?_set_ne (fun hh => hi hh.symm)

/-- Atomicity of `set` in the heap model: when it raises, the heap is
exactly as before the call. -/
theorem heapMSet_atomic (σ : MatHeap) (m : MatObj) (row col : Int) (v : ℚ)
    (h : (heapMSet σ m row col v).2 ≠ none) : (heapMSet σ m row col v).1 = σ := by
  unfold heapMSet at *
  by_cases hb : row < 0 ∨ col < 0 ∨ row ≥ m.rows ∨ col ≥ m.cols
  · rw [if_pos hb]
  · exfalso
    rw [if_neg hb] at h
    by_cases hv : v ≠ 0
    · rw [if_pos hv] at h
      exact h rfl
    · rw [if_neg hv] at h
      exact h rfl

theorem setLoop_frame {α : Type}
    (f : MatHeap → α → MatHeap × Option MatrixError) (ref : Nat)
    (hf : ∀ σ x i, i ≠ ref →
      ((f σ x).1)[i]? = σ[i]?) :
    ∀ (l : List α) (σ : MatHeap) (i : Nat), i ≠ ref →
      ((setLoop f σ l).1)[i]? = σ[i]? := by
  intro l
  induction l with
  | nil => intro σ i _; rfl
  | cons x rest ih =>
    intro σ i hi
    cases ho : (f σ x).2 with
    | none =>
      simp only [setLoop, ho]
      rw [ih (f σ x).1 i hi, hf σ x i hi]
    | some e =>
      simp only [setLoop, ho]
      exact hf σ x i hi

theorem heapAccLoops_frame (op : ℚ → ℚ → ℚ) (σ1 : MatHeap) (R : MatObj)
    (aref bref : Nat) (i : Nat) (hi : i ≠ R.ref) :
    ((heapAccLoops op σ1 R aref bref).1)[i]? = σ1[i]? := by
  have hf1 : ∀ σ (e : (Int × Int) × ℚ) j, j ≠ R.ref →
      ((heapMSet σ R e.1.1 e.1.2 e.2).1)[j]? = σ[j]? :=
    fun σ e j hj => heapMSet_frame σ R e.1.1 e.1.2 e.2 j hj
  have hf2 : ∀ σ (e : (Int × Int) × ℚ) j, j ≠ R.ref →
      ((heapMSet σ R e.1.1 e.1.2 (op (heapGet σ R e.1.1 e.1.2) e.2)).1)[j]? =
        σ[j]? :=
    fun σ e j hj => heapMSet_frame σ R e.1.1 e.1.2 _ j hj
  have h1 := setLoop_frame _ R.ref hf1 (heapRead σ1 aref) σ1 i hi
  unfold heapAccLoops
  cases ho1 : (setLoop (fun σ e => heapMSet σ R e.1.1 e.1.2 e.2) σ1
      (heapRead σ1 aref)).2 with
  | some e => simp only [ho1]; exact h1
  | none =>
    simp only [ho1]
    set σ2 := (setLoop (fun σ e => heapMSet σ R e.1.1 e.1.2 e.2) σ1
      (heapRead σ1 aref)).1 with hσ2
    have h2 := setLoop_frame _ R.ref hf2 (heapRead σ2 bref) σ2 i hi
    cases ho2 : (setLoop
        (fun σ e => heapMSet σ R e.1.1 e.1.2 (op (heapGet σ R e.1.1 e.1.2) e.2))
        σ2 (heapRead σ2 bref)).2 with
    | some e =>
      simp only [ho2]
      rw [h2, h1]
    | none =>
      simp only [ho2]
      rw [h2, h1]

theorem heapAccLoops_ok_ref (op : ℚ → ℚ → ℚ) (σ1 : MatHeap) (R : MatObj)
    (aref bref : Nat) (X : MatObj)
    (h : (heapAccLoops op σ1 R aref bref).2 = .ok X) : X = R := by
  unfold heapAccLoops at h
  cases ho1 : (setLoop (fun σ e => heapMSet σ R e.1.1 e.1.2 e.2) σ1
      (heapRead σ1 aref)).2 with
  | some e => simp only [ho1] at h; cases h
  | none =>
    simp only [ho1] at h
    cases ho2 : (setLoop
        (fun σ e => heapMSet σ R e.1.1 e.1.2 (op (heapGet σ R e.1.1 e.1.2) e.2))
        (setLoop (fun σ e => heapMSet σ R e.1.1 e.1.2 e.2) σ1
          (heapRead σ1 aref)).1
        (heapRead (setLoop (fun σ e => heapMSet σ R e.1.1 e.1.2 e.2) σ1
          (heapRead σ1 aref)).1 bref)).2 with
    | some e => simp only [ho2] at h; cases h
    | none =>
      simp only [ho2] at h
      exact (Except.ok.inj h).symm

/-! ## `matrix_io.py` (parsing)

`parse_matrix_file` is embedded as a function of the list of stripped,
non-empty lines of the file (the file handling itself is I/O).  Python
strings are modelled as `List Char`, and the `str` methods the code uses
(`startswith`, `endswith`, slicing, `replace(" ", "")`, single-character
`split`, `int(...)`, `float(...)`) are given structural implementations
below, so every run of the parser is computable by the kernel.  The
statistics the Python function keeps (`total_entries`, `skipped_entries`,
`out_of_bounds_indices`) feed only `print` diagnostics and never the
returned matrix or the raised errors, so they are not modelled.  Python's
`int`/`float` literal grammars are modelled for plain decimal literals
(optional sign, digits, optional fractional part), the only shape the
repository's file format uses.  The `ValueError` messages become the
constructors of `ParseError`, carrying the line number and line contents
the messages interpolate. -/

/-- A Python string. -/
abbrev PyStr : Type := List Char

/-- Python `s.startswith(pre)`. -/
def pyStartsWith (s pre : PyStr) : Bool := pre.isPrefixOf s

/-- Python `s.endswith(suf)`. -/
def pyEndsWith (s suf : PyStr) : Bool := suf.isSuffixOf s

/-- Python `s.replace(" ", "")`. -/
def pyRemoveSpaces (s : PyStr) : PyStr := s.filter (fun ch => ch != ' ')

/-- Auxiliary accumulator for `pySplitOn`. -/
def pySplitOnAux (sep : Char) : PyStr → PyStr → List PyStr
  | [], acc => [acc.reverse]
  | ch :: rest, acc =>
    if ch == sep then acc.reverse :: pySplitOnAux sep rest []
    else pySplitOnAux sep rest (ch :: acc)

/-- Python `s.split(sep)` for a one-character separator (the only kind
the code uses: `"="`, `","`). -/
def pySplitOn (sep : Char) (s : PyStr) : List PyStr := pySplitOnAux sep s []

/-- The digits of a non-empty decimal numeral, or `none`. -/
def digitsToNat? (s : PyStr) : Option Nat :=
  if s.isEmpty then none
  else s.foldl (fun acc ch =>
    match acc with
    | none => none
    | some n => if ch.isDigit then some (n * 10 + (ch.toNat - '0'.toNat)) else none)
    (some 0)

/-- Python `int(s)` on a plain decimal literal with optional sign;
`none` models the raised `ValueError`. -/
def pyToInt? : PyStr → Option Int
  | '-' :: rest => (digitsToNat? rest).map (fun n => -(n : Int))
  | '+' :: rest => (digitsToNat? rest).map (fun n => (n : Int))
  | s => (digitsToNat? s).map (fun n => (n : Int))

/-- The unsigned part of a decimal `float` literal. -/
def parseUnsignedVal (s : PyStr) : Option ℚ :=
  match pySplitOn '.' s with
  | [a] => (digitsToNat? a).map (fun n => (n : ℚ))
  | [a, b] =>
    match digitsToNat? a, digitsToNat? b with
    | some n, some f => some ((n : ℚ) + (f : ℚ) / 10 ^ b.length)
    | _, _ => none
  | _ => none

/-- Python `float(s)` on a plain decimal literal, standing in for the
conversion of the third field of an entry line. -/
def parseVal : PyStr → Option ℚ
  | '-' :: rest => (parseUnsignedVal rest).map (fun q => -q)
  | '+' :: rest => parseUnsignedVal rest
  | s => parseUnsignedVal s

/-- The `ValueError`s of `parse_matrix_file`, carrying the data their
messages interpolate: `missingHeader` is "Invalid file format: missing
rows/cols declaration", `invalidIntLiteral` is the error of an `int(...)`
call on a malformed header value, `invalidFormat`/`expectedThreeValues`/
`nonNumericValue` are the three per-line errors with their line number
and line, and `indexOutOfBounds` is the `IndexError` of `matrix.set`
(unreachable, since the loop only stores in-bounds entries). -/
inductive ParseError where
  | missingHeader
  | invalidIntLiteral
  | invalidFormat (line_num : Nat) (line : PyStr)
  | expectedThreeValues (line_num : Nat) (line : PyStr)
  | nonNumericValue (line_num : Nat) (line : PyStr)
  | indexOutOfBounds
deriving DecidableEq, Repr

/-- The three comma-separated fields of an entry line after stripping
the parentheses and the spaces: the Python
`line[1:-1].replace(" ", "").split(',')`. -/
def splitParts (line : PyStr) : List PyStr :=
  pySplitOn ',' (pyRemoveSpaces (line.drop 1).dropLast)

/-- The `int(parts[0]), int(parts[1]), float(parts[2])` conversions on a
three-element part list; `none` when any conversion raises `ValueError`. -/
def convTriple : List PyStr → Option (Int × Int × ℚ)
  | [p0, p1, p2] =>
    match pyToInt? p0, pyToInt? p1, parseVal p2 with
    | some row, some col, some v => some (row, col, v)
    | _, _, _ => none
  | _ => none

/-- One iteration of the entry-line loop of `parse_matrix_file`: the
parenthesis check, the three-way split, and the `int`/`int`/`float`
conversions, with the `ValueError`s the Python code raises. -/
def parseLine (line_num : Nat) (line : PyStr) :
    Except ParseError (Int × Int × ℚ) :=
  if ¬(pyStartsWith line ['('] ∧ pyEndsWith line [')']) then
    .error (.invalidFormat line_num line)
  else if (splitParts line).length ≠ 3 then
    .error (.expectedThreeValues line_num line)
  else
    match convTriple (splitParts line) with
    | some t => .ok t
    | none => .error (.nonNumericValue line_num line)

/-- The entry-line loop of `parse_matrix_file`: parse each line, skip
out-of-bounds entries, store in-bounds ones. -/
def parseMatrixLoop (rows cols : Int) (m : SparseMatrix) (line_num : Nat) :
    List PyStr → Except ParseError SparseMatrix
  | [] => .ok m
  | line :: rest =>
    match parseLine line_num line with
    | .error e => .error e
    | .ok (row, col, v) =>
      if (0 ≤ row ∧ row < rows) ∧ (0 ≤ col ∧ col < cols) then
        match m.set row col v with
        | .ok m2 => parseMatrixLoop rows cols m2 (line_num + 1) rest
        | .error _ => .error .indexOutOfBounds
      else
        parseMatrixLoop rows cols m (line_num + 1) rest

/-- Embedding of `parse_matrix_file` of `matrix_io.py` on the stripped non-empty lines
of the file: header validation, dimension extraction, then the entry
loop starting at line number 3. -/
def parse_matrix_file (lines : List PyStr) : Except ParseError SparseMatrix :=
  match lines with
  | l0 :: l1 :: body =>
    if pyStartsWith l0 "rows=".data ∧ pyStartsWith l1 "cols=".data then
      match ((pySplitOn '=' l0)[1]?).bind pyToInt?,
          ((pySplitOn '=' l1)[1]?).bind pyToInt? with
      | some rows, some cols =>
        parseMatrixLoop rows cols (SparseMatrix.construct rows cols) 3 body
      | _, _ => .error .invalidIntLiteral
    else .error .missingHeader
  | _ => .error .missingHeader

/-- The line number parameter of `parseLine` appears only in raised
errors: a successful parse is the same at any line number. -/
theorem parseLine_ok_irrel (n n2 : Nat) (line : PyStr) (t : Int × Int × ℚ)
    (h : parseLine n line = .ok t) : parseLine n2 line = .ok t := by
  unfold parseLine at h ⊢
  by_cases h1 : ¬(pyStartsWith line ['('] ∧ pyEndsWith line [')'])
  · rw [if_pos h1] at h
    cases h
  · rw [if_neg h1] at h ⊢
    by_cases h2 : (splitParts line).length ≠ 3
    · rw [if_pos h2] at h
      cases h
    · rw [if_neg h2] at h ⊢
      cases hc : convTriple (splitParts line) with
      | none =>
        rw [hc] at h
        cases h
      | some u =>
        rw [hc] at h
        exact h

/-- The entry loop's successful results do not depend on the starting
line number. -/
theorem parseMatrixLoop_ok_irrel (rows cols : Int) :
    ∀ (body : List PyStr) (m : SparseMatrix) (n n' : Nat) (M : SparseMatrix),
      parseMatrixLoop rows cols m n body = .ok M →
      parseMatrixLoop rows cols m n' body = .ok M := by
  intro body
  induction body with
  | nil =>
    intro m n n' M h
    exact h
  | cons line rest ih =>
    intro m n n' M h
    cases hp : parseLine n line with
    | error e =>
      simp only [parseMatrixLoop, hp] at h
      cases h
    | ok t =>
      obtain ⟨row, col, v⟩ := t
      simp only [parseMatrixLoop, hp] at h
      have hp' := parseLine_ok_irrel n n' line (row, col, v) hp
      simp only [parseMatrixLoop, hp']
      by_cases hb : (0 ≤ row ∧ row < rows) ∧ (0 ≤ col ∧ col < cols)
      · rw [if_pos hb] at h ⊢
        cases hs : m.set row col v with
        | ok m2 =>
          rw [hs] at h
          exact ih m2 (n + 1) (n' + 1) M h
        | error e =>
          rw [hs] at h
          exact h
      · rw [if_neg hb] at h ⊢
        exact ih m (n + 1) (n' + 1) M h

/-- Removing an out-of-bounds entry line from the body changes nothing
about whether the parse succeeds nor about the matrix it returns. -/
theorem parseMatrixLoop_skip (rows cols : Int) (L : PyStr) (row col : Int)
    (v : ℚ) (hL : ∀ k, parseLine k L = .ok (row, col, v))
    (hoob : ¬((0 ≤ row ∧ row < rows) ∧ (0 ≤ col ∧ col < cols))) :
    ∀ (pre post : List PyStr) (m : SparseMatrix) (n : Nat) (M : SparseMatrix),
      parseMatrixLoop rows cols m n (pre ++ L :: post) = .ok M ↔
        parseMatrixLoop rows cols m n (pre ++ post) = .ok M := by
  intro pre
  induction pre with
  | nil =>
    intro post m n M
    simp only [List.nil_append]
    constructor
    · intro h
      simp only [parseMatrixLoop, hL n, if_neg hoob] at h
      exact parseMatrixLoop_ok_irrel rows cols post m (n + 1) n M h
    · intro h
      simp only [parseMatrixLoop, hL n, if_neg hoob]
      exact parseMatrixLoop_ok_irrel rows cols post m n (n + 1) M h
  | cons s pre' ih =>
    intro post m n M
    simp only [List.cons_append]
    cases hp : parseLine n s with
    | error e =>
      simp only [parseMatrixLoop, hp]
    | ok t =>
      obtain ⟨r2, c2, v2⟩ := t
      simp only [parseMatrixLoop, hp]
      by_cases hb : (0 ≤ r2 ∧ r2 < rows) ∧ (0 ≤ c2 ∧ c2 < cols)
      · rw [if_pos hb, if_pos hb]
        cases hs : m.set r2 c2 v2 with
        | ok m2 => exact ih post m2 (n + 1) M
        | error e => exact Iff.rfl
      · rw [if_neg hb, if_neg hb]
        exact ih post m (n + 1) M

/-- Every key the entry loop adds to the matrix passed the loop's bounds
check. -/
theorem parseMatrixLoop_keys (rows cols : Int) :
    ∀ (body : List PyStr) (m : SparseMatrix) (n : Nat) (M : SparseMatrix),
      parseMatrixLoop rows cols m n body = .ok M →
      ∀ k ∈ M.data.map Prod.fst, k ∈ m.data.map Prod.fst ∨
        ((0 ≤ k.1 ∧ k.1 < rows) ∧ (0 ≤ k.2 ∧ k.2 < cols)) := by
  intro body
  induction body with
  | nil =>
    intro m n M h k hk
    cases h
    exact Or.inl hk
  | cons line rest ih =>
    intro m n M h k hk
    cases hp : parseLine n line with
    | error e =>
      simp only [parseMatrixLoop, hp] at h
      cases h
    | ok t =>
      obtain ⟨row, col, v⟩ := t
      simp only [parseMatrixLoop, hp] at h
      by_cases hb : (0 ≤ row ∧ row < rows) ∧ (0 ≤ col ∧ col < cols)
      · rw [if_pos hb] at h
        cases hs : m.set row col v with
        | ok m2 =>
          rw [hs] at h
          rcases ih m2 (n + 1) M h k hk with h' | h'
          · rcases set_ok_keys m m2 row col v hs k h' with h'' | h''
            · exact Or.inr (by rw [h'']; exact hb)
            · exact Or.inl h''
          · exact Or.inr h'
        | error e =>
          rw [hs] at h
          cases h
      · rw [if_neg hb] at h
        exact ih m (n + 1) M h k hk

/-- Unfolding `parse_matrix_file` on a well-formed header. -/
theorem parse_matrix_file_eq (l0 l1 : PyStr) (body : List PyStr)
    (rows cols : Int)
    (h0 : pyStartsWith l0 "rows=".data = true)
    (h1 : pyStartsWith l1 "cols=".data = true)
    (hr : ((pySplitOn '=' l0)[1]?).bind pyToInt? = some rows)
    (hc : ((pySplitOn '=' l1)[1]?).bind pyToInt? = some cols) :
    parse_matrix_file (l0 :: l1 :: body) =
      parseMatrixLoop rows cols (SparseMatrix.construct rows cols) 3 body := by
  simp only [parse_matrix_file]
  rw [if_pos ⟨h0, h1⟩, hr, hc]


/-! ## Helper lemmas for the claims -/

/-- A matrix with no zero values whose `get` is zero everywhere has an
empty data dictionary. -/
theorem data_nil_of_get_zero (m : SparseMatrix) (hz : NoZero m)
    (hget : ∀ r c, m.get r c = 0) : m.data = [] := by
  cases hd : m.data with
  | nil => rfl
  | cons e t =>
    exfalso
    have hmem : e ∈ m.data := by
      rw [hd]
      exact List.mem_cons_self e t
    have h1 : m.get e.1.1 e.1.2 = e.2 := by
      unfold SparseMatrix.get
      rw [hd, alookup_cons, if_pos rfl]
      rfl
    exact hz e hmem (by rw [← h1, hget])

/-- Writing an exact zero deletes the coordinate: afterwards `get`
returns zero and the key is gone from the dictionary. -/
theorem set_zero_removes (m m2 : SparseMatrix) (r c : Int)
    (h : m.set r c 0 = .ok m2) :
    m2.get r c = 0 ∧ (r, c) ∉ m2.data.map Prod.fst := by
  have hb := set_ok_inbounds _ _ _ _ _ h
  unfold SparseMatrix.set at h
  rw [if_neg hb, if_neg (by simp)] at h
  cases h
  have hnone : alookup (adel m.data (r, c)) (r, c) = none := by
    rw [alookup_adel, if_pos rfl]
  exact ⟨by unfold SparseMatrix.get; rw [hnone]; rfl,
    (alookup_eq_none_iff _ _).1 hnone⟩

/-- Reduction of `add` with matching dimensions to its two loops. -/
theorem add_eq_of_dims (a b : SparseMatrix) (hr : a.rows = b.rows)
    (hc : a.cols = b.cols) :
    add a b = (setEntries (SparseMatrix.construct a.rows a.cols) a.items >>=
      fun result => addEntries result b.items) := by
  unfold add
  rw [check_dimensions_add, if_neg (by push_neg; exact ⟨hr, hc⟩)]
  rfl

/-- Reduction of `subtract` with matching dimensions to its two loops. -/
theorem subtract_eq_of_dims (a b : SparseMatrix) (hr : a.rows = b.rows)
    (hc : a.cols = b.cols) :
    subtract a b = (setEntries (SparseMatrix.construct a.rows a.cols) a.items >>=
      fun result => subEntries result b.items) := by
  unfold subtract
  rw [check_dimensions_subtract, if_neg (by push_neg; exact ⟨hr, hc⟩)]
  rfl

/-- Reduction of `multiply` with compatible dimensions to its loops. -/
theorem multiply_eq_of_dims (a b : SparseMatrix) (h : a.cols = b.rows) :
    multiply a b = mulLoop (buildBCols b.items)
      (SparseMatrix.construct a.rows b.cols) a.items := by
  unfold multiply
  rw [check_dimensions_multiply, if_neg (not_not_intro h)]
  rfl

/-- Entry loops only ever raise `IndexOutOfBounds`. -/
theorem accEntries_error_iob (g : ℚ → ℚ → ℚ) (l : List ((Int × Int) × ℚ))
    (m : SparseMatrix) (e : MatrixError) (h : accEntries g m l = .error e) :
    e = .indexOutOfBounds :=
  foldlM_error _ (fun err => err = .indexOutOfBounds)
    (fun r x err hs => ((set_error_iff r x.1.1 x.1.2 _ err).1 hs).2) l m e h

/-- The multiply loops only ever raise `IndexOutOfBounds`. -/
theorem mulLoop_error_iob (bc : List (Int × List (Int × ℚ)))
    (l : List ((Int × Int) × ℚ)) (m : SparseMatrix) (e : MatrixError)
    (h : mulLoop bc m l = .error e) : e = .indexOutOfBounds := by
  refine foldlM_error _ (fun err => err = .indexOutOfBounds) ?_ l m e h
  intro r x err hs
  cases halo : alookup bc x.1.2 with
  | none =>
    rw [halo] at hs
    cases hs
  | some inner =>
    rw [halo] at hs
    exact foldlM_error _ (fun err => err = .indexOutOfBounds)
      (fun r2 x2 err2 hs2 =>
        ((set_error_iff r2 x.1.1 x2.1 _ err2).1 hs2).2) inner r err hs

/-- Invariant `NoZero` holds for every freshly constructed matrix. -/
theorem nozero_construct (rows cols : Int) :
    NoZero (SparseMatrix.construct rows cols) :=
  fun e he => absurd he (List.not_mem_nil e)

/-- A finite sequence of `set` calls, each propagating its error. -/
def runSetsE (m : SparseMatrix) (ops : List (Int × Int × ℚ)) :
    Except MatrixError SparseMatrix :=
  ops.foldlM (fun m o => m.set o.1 o.2.1 o.2.2) m

theorem heapMulLoops_frame (σ1 : MatHeap) (R : MatObj) (aref bref : Nat)
    (i : Nat) (hi : i ≠ R.ref) :
    ((heapMulLoops σ1 R aref bref).1)[i]? = σ1[i]? := by
  have hf : ∀ σ (e : (Int × Int) × ℚ) j, j ≠ R.ref →
      ((match alookup (buildBCols (heapRead σ1 bref)) e.1.2 with
        | none => (σ, none)
        | some inner => setLoop (fun (σ : MatHeap) (e2 : Int × ℚ) =>
            heapMSet σ R e.1.1 e2.1 (heapGet σ R e.1.1 e2.1 + e.2 * e2.2))
            σ inner).1)[j]? = σ[j]? := by
    intro σ e j hj
    cases halo : alookup (buildBCols (heapRead σ1 bref)) e.1.2 with
    | none => rfl
    | some inner =>
      exact setLoop_frame _ R.ref
        (fun σ2 e2 j2 hj2 => heapMSet_frame σ2 R e.1.1 e2.1 _ j2 hj2)
        inner σ j hj
  have h1 := setLoop_frame _ R.ref hf (heapRead σ1 aref) σ1 i hi
  unfold heapMulLoops
  cases ho : (setLoop (fun σ e =>
      match alookup (buildBCols (heapRead σ1 bref)) e.1.2 with
      | none => (σ, none)
      | some inner => setLoop (fun σ e2 =>
          heapMSet σ R e.1.1 e2.1 (heapGet σ R e.1.1 e2.1 + e.2 * e2.2))
          σ inner) σ1 (heapRead σ1 aref)).2 with
  | some e =>
    simp only [ho]
    exact h1
  | none =>
    simp only [ho]
    exact h1

theorem heapMulLoops_ok_ref (σ1 : MatHeap) (R : MatObj) (aref bref : Nat)
    (X : MatObj) (h : (heapMulLoops σ1 R aref bref).2 = .ok X) : X = R := by
  unfold heapMulLoops at h
  cases ho : (setLoop (fun σ e =>
      match alookup (buildBCols (heapRead σ1 bref)) e.1.2 with
      | none => (σ, none)
      | some inner => setLoop (fun σ e2 =>
          heapMSet σ R e.1.1 e2.1 (heapGet σ R e.1.1 e2.1 + e.2 * e2.2))
          σ inner) σ1 (heapRead σ1 aref)).2 with
  | some e =>
    simp only [ho] at h
    cases h
  | none =>
    simp only [ho] at h
    exact (Except.ok.inj h).symm

/-- The frame/freshness contract of an operation in the heap model: every
pre-existing heap cell (in particular both inputs' dictionaries) is
unchanged, and a returned matrix object lives at the freshly allocated
reference, distinct from both inputs' references.  The `rows`/`cols`
attributes of the inputs are immutable values in this model, as the
Python code never assigns them. -/
def OpPreserves (σ : MatHeap) (A B : MatObj)
    (out : MatHeap × Except MatrixError MatObj) : Prop :=
  (∀ i, i < σ.length → (out.1)[i]? = σ[i]?) ∧
  (∀ R, out.2 = .ok R → R.ref = σ.length ∧ R.ref ≠ A.ref ∧ R.ref ≠ B.ref)

theorem getElem_append_left_of_lt (σ : MatHeap)
    (d : List ((Int × Int) × ℚ)) (i : Nat) (hi : i < σ.length) :
    (σ ++ [d])[i]? = σ[i]? := by
  rw [List.getElem?_append, if_pos hi]

theorem heapAdd_preserves (σ : MatHeap) (A B : MatObj)
    (hA : A.ref < σ.length) (hB : B.ref < σ.length) :
    OpPreserves σ A B (heapAdd σ A B) := by
  unfold heapAdd
  by_cases hd : A.rows ≠ B.rows ∨ A.cols ≠ B.cols
  · rw [if_pos hd]
    exact ⟨fun i _ => rfl, fun R h => by cases h⟩
  · rw [if_neg hd]
    constructor
    · intro i hi
      rw [heapAccLoops_frame (fun x v => x + v) (σ ++ [[]])
        ⟨A.rows, A.cols, σ.length⟩ A.ref B.ref i (Nat.ne_of_lt hi)]
      exact getElem_append_left_of_lt σ [] i hi
    · intro R h
      have := heapAccLoops_ok_ref (fun x v => x + v) (σ ++ [[]])
        ⟨A.rows, A.cols, σ.length⟩ A.ref B.ref R h
      rw [this]
      exact ⟨rfl, Nat.ne_of_gt hA, Nat.ne_of_gt hB⟩

theorem heapSubtract_preserves (σ : MatHeap) (A B : MatObj)
    (hA : A.ref < σ.length) (hB : B.ref < σ.length) :
    OpPreserves σ A B (heapSubtract σ A B) := by
  unfold heapSubtract
  by_cases hd : A.rows ≠ B.rows ∨ A.cols ≠ B.cols
  · rw [if_pos hd]
    exact ⟨fun i _ => rfl, fun R h => by cases h⟩
  · rw [if_neg hd]
    constructor
    · intro i hi
      rw [heapAccLoops_frame (fun x v => x - v) (σ ++ [[]])
        ⟨A.rows, A.cols, σ.length⟩ A.ref B.ref i (Nat.ne_of_lt hi)]
      exact getElem_append_left_of_lt σ [] i hi
    · intro R h
      have := heapAccLoops_ok_ref (fun x v => x - v) (σ ++ [[]])
        ⟨A.rows, A.cols, σ.length⟩ A.ref B.ref R h
      rw [this]
      exact ⟨rfl, Nat.ne_of_gt hA, Nat.ne_of_gt hB⟩

theorem heapMultiply_preserves (σ : MatHeap) (A B : MatObj)
    (hA : A.ref < σ.length) (hB : B.ref < σ.length) :
    OpPreserves σ A B (heapMultiply σ A B) := by
  unfold heapMultiply
  by_cases hd : A.cols ≠ B.rows
  · rw [if_pos hd]
    exact ⟨fun i _ => rfl, fun R h => by cases h⟩
  · rw [if_neg hd]
    constructor
    · intro i hi
      rw [heapMulLoops_frame (σ ++ [[]])
        ⟨A.rows, B.cols, σ.length⟩ A.ref B.ref i (Nat.ne_of_lt hi)]
      exact getElem_append_left_of_lt σ [] i hi
    · intro R h
      have := heapMulLoops_ok_ref (σ ++ [[]])
        ⟨A.rows, B.cols, σ.length⟩ A.ref B.ref R h
      rw [this]
      exact ⟨rfl, Nat.ne_of_gt hA, Nat.ne_of_gt hB⟩

/-! ## The claims -/

/-- The `multiply` scenario evaluated on the concrete matrices. -/
theorem multiply_example :
    multiply (⟨2, 2, [((0, 0), 2), ((0, 1), 3)]⟩ : SparseMatrix)
      (⟨2, 2, [((0, 0), 4), ((1, 0), 5)]⟩ : SparseMatrix) =
      .ok ⟨2, 2, [((0, 0), 23)]⟩ := by
  rw [multiply_eq_of_dims _ _ (by decide)]
  norm_num [mulLoop, mulRow, buildBCols, bcolsStep, aset, adel, alookup,
    SparseMatrix.set, SparseMatrix.get, SparseMatrix.items,
    SparseMatrix.construct, List.foldlM, List.foldl, except_bind_ok,
    except_pure_eq, lookup2, Prod.mk.injEq, -Prod.mk_zero_zero]

/-- Scenario matrix `A = 2x2 {(0,0): 2, (0,1): 3}`. -/
def exA : SparseMatrix := ⟨2, 2, [((0, 0), 2), ((0, 1), 3)]⟩

/-- Scenario matrix `B = 2x2 {(0,0): 4, (1,0): 5}`. -/
def exB : SparseMatrix := ⟨2, 2, [((0, 0), 4), ((1, 0), 5)]⟩

/-- C1: for compatible well-formed matrices, `multiply(a, b)` returns a
fresh matrix of shape `(a.rows, b.cols)` whose `get(i, j)` is the sum
over `k` in `[0, a.cols)` of `a.get(i, k) * b.get(k, j)`; in particular
on the 2x2 scenario the result is exactly `{(0,0): 23}` with `(0,1)`
absent. -/
theorem claim_C1 (a b : SparseMatrix) (hdim : a.cols = b.rows)
    (hba : Bounded a) (hnda : KeysNodup a)
    (hbb : Bounded b) (hndb : KeysNodup b) :
    (∃ r, multiply a b = .ok r ∧ r.rows = a.rows ∧ r.cols = b.cols ∧
      ∀ i j, r.get i j = Finset.sum (Finset.Ico (0 : ℤ) a.cols)
        (fun k => a.get i k * b.get k j)) ∧
    multiply exA exB = .ok ⟨2, 2, [((0, 0), 23)]⟩ :=
  ⟨multiply_spec a b hdim hba hnda hbb hndb, multiply_example⟩

/-- Witness for C1 at the scenario matrices. -/
theorem claim_C1_witness :
    (∃ r, multiply exA exB = .ok r ∧ r.rows = exA.rows ∧ r.cols = exB.cols ∧
      ∀ i j, r.get i j = Finset.sum (Finset.Ico (0 : ℤ) exA.cols)
        (fun k => exA.get i k * exB.get k j)) ∧
    multiply exA exB = .ok ⟨2, 2, [((0, 0), 23)]⟩ :=
  claim_C1 exA exB (by decide) (by decide) (by decide) (by decide) (by decide)

/-- C2: for same-shape well-formed matrices, `add(a, b)` returns a fresh
matrix of shape `(a.rows, a.cols)` with `get(i, j) = a.get(i, j) +
b.get(i, j)`, and the algorithm is exactly "copy `a`'s entries, then
get-then-set each entry of `b`". -/
theorem claim_C2 (a b : SparseMatrix) (hr : a.rows = b.rows)
    (hc : a.cols = b.cols) (hba : Bounded a) (hnda : KeysNodup a)
    (hbb : Bounded b) (hndb : KeysNodup b) :
    (∃ r, add a b = .ok r ∧ r.rows = a.rows ∧ r.cols = a.cols ∧
      ∀ i j, r.get i j = a.get i j + b.get i j) ∧
    add a b = (setEntries (SparseMatrix.construct a.rows a.cols) a.items >>=
      fun result => addEntries result b.items) :=
  ⟨add_spec a b ⟨hr, hc⟩ hba hnda hbb hndb, add_eq_of_dims a b hr hc⟩

/-- Witness for C2 at the scenario matrices. -/
theorem claim_C2_witness :
    (∃ r, add exA exB = .ok r ∧ r.rows = exA.rows ∧ r.cols = exA.cols ∧
      ∀ i j, r.get i j = exA.get i j + exB.get i j) ∧
    add exA exB = (setEntries (SparseMatrix.construct exA.rows exA.cols)
      exA.items >>= fun result => addEntries result exB.items) :=
  claim_C2 exA exB (by decide) (by decide) (by decide) (by decide) (by decide)
    (by decide)

/-- C3: starting from a fresh matrix, every successful sequence of `set`
calls leaves no exactly-zero value stored, and right after a successful
`set(r, c, 0)` the coordinate reads back zero and is absent from the
entries. -/
theorem claim_C3 (rows cols : Int) (ops : List (Int × Int × ℚ)) (r c : Int)
    (m1 m2 : SparseMatrix) :
    (runSetsE (SparseMatrix.construct rows cols) ops = .ok m1 → NoZero m1) ∧
    (runSetsE (SparseMatrix.construct rows cols) (ops ++ [(r, c, 0)]) = .ok m2 →
      m2.get r c = 0 ∧ (r, c) ∉ m2.data.map Prod.fst) := by
  constructor
  · intro h
    exact foldlM_preserve _ NoZero
      (fun m o m' hs => set_ok_nozero m m' o.1 o.2.1 o.2.2 hs) ops
      (SparseMatrix.construct rows cols) m1 h (nozero_construct rows cols)
  · intro h
    unfold runSetsE at h
    rw [List.foldlM_append] at h
    cases h1 : List.foldlM (fun m o => m.set o.1 o.2.1 o.2.2)
        (SparseMatrix.construct rows cols) ops with
    | error e =>
      rw [h1, except_bind_err] at h
      cases h
    | ok mm =>
      rw [h1, except_bind_ok] at h
      simp only [List.foldlM_cons, List.foldlM_nil] at h
      cases h2 : mm.set r c 0 with
      | error e =>
        rw [h2, except_bind_err] at h
        cases h
      | ok m2x =>
        rw [h2, except_bind_ok] at h
        cases h
        exact set_zero_removes mm m2 r c h2

/-- Witness for C3: set `(0,0)` to 5, `(0,1)` to 3, then `(0,1)` to 0. -/
theorem claim_C3_witness :
    NoZero (⟨2, 2, [((0, 0), 5), ((0, 1), 3)]⟩ : SparseMatrix) ∧
    ((⟨2, 2, [((0, 0), 5)]⟩ : SparseMatrix).get 0 1 = 0 ∧
      ((0 : ℤ), (1 : ℤ)) ∉
        (⟨2, 2, [((0, 0), 5)]⟩ : SparseMatrix).data.map Prod.fst) :=
  ⟨(claim_C3 2 2 [(0, 0, 5), (0, 1, 3)] 0 1
      ⟨2, 2, [((0, 0), 5), ((0, 1), 3)]⟩ ⟨2, 2, [((0, 0), 5)]⟩).1
      (by norm_num [runSetsE, List.foldlM, SparseMatrix.set,
        SparseMatrix.construct, aset, adel, alookup, except_bind_ok,
        except_pure_eq, Prod.mk.injEq, -Prod.mk_zero_zero]),
   (claim_C3 2 2 [(0, 0, 5), (0, 1, 3)] 0 1
      ⟨2, 2, [((0, 0), 5), ((0, 1), 3)]⟩ ⟨2, 2, [((0, 0), 5)]⟩).2
      (by norm_num [runSetsE, List.foldlM, SparseMatrix.set,
        SparseMatrix.construct, aset, adel, alookup, except_bind_ok,
        except_pure_eq, Prod.mk.injEq, -Prod.mk_zero_zero])⟩

/-- C4: `add`/`subtract` fail with `DimensionMismatch` exactly when the
shapes differ, and `multiply` exactly when `a.cols ≠ b.rows`; when a
check passes the operation never raises a dimension error. -/
theorem claim_C4 (a b : SparseMatrix) :
    (add a b = .error .dimensionMismatch ↔
      a.rows ≠ b.rows ∨ a.cols ≠ b.cols) ∧
    (subtract a b = .error .dimensionMismatch ↔
      a.rows ≠ b.rows ∨ a.cols ≠ b.cols) ∧
    (multiply a b = .error .dimensionMismatch ↔ a.cols ≠ b.rows) := by
  refine ⟨⟨?_, ?_⟩, ⟨?_, ?_⟩, ⟨?_, ?_⟩⟩
  · intro h
    by_contra hd
    push_neg at hd
    rw [add_eq_of_dims a b hd.1 hd.2] at h
    cases h1 : setEntries (SparseMatrix.construct a.rows a.cols) a.items with
    | error e =>
      rw [h1, except_bind_err] at h
      have hiob := accEntries_error_iob (fun _ v => v) a.items _ e
        (by rw [← setEntries_eq]; exact h1)
      rw [hiob] at h
      exact MatrixError.noConfusion (Except.error.inj h)
    | ok r1 =>
      rw [h1, except_bind_ok] at h
      have hiob := accEntries_error_iob (fun x v => x + v) b.items r1 _
        (by rw [← addEntries_eq]; exact h)
      exact MatrixError.noConfusion hiob
  · intro h
    unfold add
    rw [check_dimensions_add, if_pos h]
    rfl
  · intro h
    by_contra hd
    push_neg at hd
    rw [subtract_eq_of_dims a b hd.1 hd.2] at h
    cases h1 : setEntries (SparseMatrix.construct a.rows a.cols) a.items with
    | error e =>
      rw [h1, except_bind_err] at h
      have hiob := accEntries_error_iob (fun _ v => v) a.items _ e
        (by rw [← setEntries_eq]; exact h1)
      rw [hiob] at h
      exact MatrixError.noConfusion (Except.error.inj h)
    | ok r1 =>
      rw [h1, except_bind_ok] at h
      have hiob := accEntries_error_iob (fun x v => x - v) b.items r1 _
        (by rw [← subEntries_eq]; exact h)
      exact MatrixError.noConfusion hiob
  · intro h
    unfold subtract
    rw [check_dimensions_subtract, if_pos h]
    rfl
  · intro h
    by_contra hd
    rw [multiply_eq_of_dims a b hd] at h
    exact MatrixError.noConfusion
      (mulLoop_error_iob (buildBCols b.items) a.items _ _ h)
  · intro h
    unfold multiply
    rw [check_dimensions_multiply, if_pos h]
    rfl

/-- Witness for C4: a 2x2 and a 3x2 matrix. -/
theorem claim_C4_witness :
    (add exA ⟨3, 2, []⟩ = .error .dimensionMismatch ↔
      exA.rows ≠ (3 : ℤ) ∨ exA.cols ≠ (2 : ℤ)) ∧
    (subtract exA ⟨3, 2, []⟩ = .error .dimensionMismatch ↔
      exA.rows ≠ (3 : ℤ) ∨ exA.cols ≠ (2 : ℤ)) ∧
    (multiply exA ⟨3, 2, []⟩ = .error .dimensionMismatch ↔
      exA.cols ≠ (3 : ℤ)) :=
  claim_C4 exA ⟨3, 2, []⟩

/-- C5: `set(r, c, v)` fails with `IndexOutOfBounds` exactly when the
coordinate is outside the declared shape (for any value `v`), never
fails in bounds, and a failing `set` leaves the heap untouched. -/
theorem claim_C5 (m : SparseMatrix) (r c : Int) (v : ℚ) (σ : MatHeap)
    (mo : MatObj) :
    ((m.set r c v = .error .indexOutOfBounds) ↔
      (r < 0 ∨ r ≥ m.rows ∨ c < 0 ∨ c ≥ m.cols)) ∧
    (¬(r < 0 ∨ r ≥ m.rows ∨ c < 0 ∨ c ≥ m.cols) →
      ∃ m2, m.set r c v = .ok m2) ∧
    ((heapMSet σ mo r c v).2 ≠ none → (heapMSet σ mo r c v).1 = σ) := by
  refine ⟨⟨?_, ?_⟩, ?_, heapMSet_atomic σ mo r c v⟩
  · intro h
    have hb := ((set_error_iff m r c v _).1 h).1
    tauto
  · intro h
    unfold SparseMatrix.set
    rw [if_pos (by tauto)]
  · intro h
    exact set_ok_of_inbounds m r c v (by tauto)

/-- Witness for C5 at a concrete out-of-bounds coordinate. -/
theorem claim_C5_witness :
    ((exA.set 5 0 7 = .error .indexOutOfBounds) ↔
      ((5 : ℤ) < 0 ∨ (5 : ℤ) ≥ exA.rows ∨ (0 : ℤ) < 0 ∨ (0 : ℤ) ≥ exA.cols)) ∧
    (¬((5 : ℤ) < 0 ∨ (5 : ℤ) ≥ exA.rows ∨ (0 : ℤ) < 0 ∨ (0 : ℤ) ≥ exA.cols) →
      ∃ m2, exA.set 5 0 7 = .ok m2) ∧
    ((heapMSet [[((0, 0), 1)]] ⟨1, 1, 0⟩ 5 0 7).2 ≠ none →
      (heapMSet [[((0, 0), 1)]] ⟨1, 1, 0⟩ 5 0 7).1 = [[((0, 0), 1)]]) :=
  claim_C5 exA 5 0 7 [[((0, 0), 1)]] ⟨1, 1, 0⟩

/-- C6: in the heap model, `add`, `subtract` and `multiply` leave every
pre-existing heap cell (in particular both inputs' dictionaries)
unchanged whether they succeed or fail, and a returned result lives at a
fresh reference distinct from both inputs'. -/
theorem claim_C6 (σ : MatHeap) (A B : MatObj)
    (hA : A.ref < σ.length) (hB : B.ref < σ.length) :
    OpPreserves σ A B (heapAdd σ A B) ∧
    OpPreserves σ A B (heapSubtract σ A B) ∧
    OpPreserves σ A B (heapMultiply σ A B) :=
  ⟨heapAdd_preserves σ A B hA hB, heapSubtract_preserves σ A B hA hB,
    heapMultiply_preserves σ A B hA hB⟩

/-- Witness for C6 on a two-object heap. -/
theorem claim_C6_witness :
    OpPreserves [[((0, 0), 1)], [((0, 0), 2)]] ⟨1, 1, 0⟩ ⟨1, 1, 1⟩
      (heapAdd [[((0, 0), 1)], [((0, 0), 2)]] ⟨1, 1, 0⟩ ⟨1, 1, 1⟩) ∧
    OpPreserves [[((0, 0), 1)], [((0, 0), 2)]] ⟨1, 1, 0⟩ ⟨1, 1, 1⟩
      (heapSubtract [[((0, 0), 1)], [((0, 0), 2)]] ⟨1, 1, 0⟩ ⟨1, 1, 1⟩) ∧
    OpPreserves [[((0, 0), 1)], [((0, 0), 2)]] ⟨1, 1, 0⟩ ⟨1, 1, 1⟩
      (heapMultiply [[((0, 0), 1)], [((0, 0), 2)]] ⟨1, 1, 0⟩ ⟨1, 1, 1⟩) :=
  claim_C6 [[((0, 0), 1)], [((0, 0), 2)]] ⟨1, 1, 0⟩ ⟨1, 1, 1⟩
    (by decide) (by decide)

/-- C7: `subtract(A, A)` succeeds on any well-formed matrix and returns
a matrix of `A`'s shape with an empty entry mapping, the cancellation
being realised by `set`'s zero-elision. -/
theorem claim_C7 (a : SparseMatrix) (hba : Bounded a) (hnda : KeysNodup a) :
    ∃ r, subtract a a = .ok r ∧ r.rows = a.rows ∧ r.cols = a.cols ∧
      r.data = [] := by
  obtain ⟨r, hrun, hr, hc, hget⟩ := subtract_spec a a ⟨rfl, rfl⟩ hba hnda hba hnda
  have heq := subtract_eq_of_dims a a rfl rfl
  rw [heq] at hrun
  cases h1 : setEntries (SparseMatrix.construct a.rows a.cols) a.items with
  | error e =>
    rw [h1, except_bind_err] at hrun
    cases hrun
  | ok m1 =>
    rw [h1, except_bind_ok] at hrun
    have hz1 : NoZero m1 := (accEntries_invariants _ _ _ _
      (by rw [← setEntries_eq]; exact h1)).1 (nozero_construct a.rows a.cols)
    have hz : NoZero r := (accEntries_invariants _ _ _ _
      (by rw [← subEntries_eq]; exact hrun)).1 hz1
    refine ⟨r, ?_, hr, hc,
      data_nil_of_get_zero r hz (fun i j => by rw [hget i j]; exact sub_self _)⟩
    rw [heq, h1, except_bind_ok]
    exact hrun

/-- Witness for C7 at the scenario matrix. -/
theorem claim_C7_witness :
    ∃ r, subtract exA exA = .ok r ∧ r.rows = exA.rows ∧ r.cols = exA.cols ∧
      r.data = [] :=
  claim_C7 exA (by decide) (by decide)

/-- C8: `get` returns the stored value when the key is present and zero
otherwise; it does no bounds checking and never fails, so any
out-of-range coordinate (which invariant I1 keeps out of the mapping)
reads as zero. -/
theorem claim_C8 (m : SparseMatrix) (r c : Int) (v : ℚ) :
    (KeysNodup m → ((r, c), v) ∈ m.data → m.get r c = v) ∧
    ((r, c) ∉ m.data.map Prod.fst → m.get r c = 0) ∧
    (Bounded m → (r < 0 ∨ r ≥ m.rows ∨ c < 0 ∨ c ≥ m.cols) →
      m.get r c = 0) := by
  refine ⟨?_, ?_, ?_⟩
  · intro hnd hmem
    unfold SparseMatrix.get
    rw [alookup_eq_of_mem_nodup m.data (r, c) v hmem hnd]
    rfl
  · intro hmem
    unfold SparseMatrix.get
    rw [(alookup_eq_none_iff _ _).2 hmem]
    rfl
  · intro hb hoob
    have hnm : (r, c) ∉ m.data.map Prod.fst := by
      intro hk
      obtain ⟨e, he, hee⟩ := List.mem_map.1 hk
      have hbe := hb e he
      have h1 : e.1.1 = r := by rw [hee]
      have h2 : e.1.2 = c := by rw [hee]
      omega
    unfold SparseMatrix.get
    rw [(alookup_eq_none_iff _ _).2 hnm]
    rfl

/-- Witness for C8 at the scenario matrix. -/
theorem claim_C8_witness :
    (KeysNodup exA → (((0 : ℤ), (0 : ℤ)), (2 : ℚ)) ∈ exA.data →
      exA.get 0 0 = 2) ∧
    (((0 : ℤ), (0 : ℤ)) ∉ exA.data.map Prod.fst → exA.get 0 0 = 0) ∧
    (Bounded exA →
      ((0 : ℤ) < 0 ∨ (0 : ℤ) ≥ exA.rows ∨ (0 : ℤ) < 0 ∨ (0 : ℤ) ≥ exA.cols) →
      exA.get 0 0 = 0) :=
  claim_C8 exA 0 0 2

/-- C9: when the header parses and a body line parses to an
out-of-bounds `(row, col, value)`, the parser skips that entry and
continues: the parse with the line succeeds with exactly the same matrix
as the parse without it, and the out-of-bounds coordinate is absent from
any returned matrix. -/
theorem claim_C9 (l0 l1 L : PyStr) (pre post : List PyStr)
    (rows cols row col : Int) (v : ℚ)
    (h0 : pyStartsWith l0 "rows=".data = true)
    (h1 : pyStartsWith l1 "cols=".data = true)
    (hr : ((pySplitOn '=' l0)[1]?).bind pyToInt? = some rows)
    (hc : ((pySplitOn '=' l1)[1]?).bind pyToInt? = some cols)
    (hL : ∀ k, parseLine k L = .ok (row, col, v))
    (hoob : ¬((0 ≤ row ∧ row < rows) ∧ (0 ≤ col ∧ col < cols))) :
    (∀ M, parse_matrix_file (l0 :: l1 :: (pre ++ L :: post)) = .ok M ↔
      parse_matrix_file (l0 :: l1 :: (pre ++ post)) = .ok M) ∧
    (∀ M, parse_matrix_file (l0 :: l1 :: (pre ++ L :: post)) = .ok M →
      (row, col) ∉ M.data.map Prod.fst) := by
  constructor
  · intro M
    rw [parse_matrix_file_eq l0 l1 _ rows cols h0 h1 hr hc,
      parse_matrix_file_eq l0 l1 _ rows cols h0 h1 hr hc]
    exact parseMatrixLoop_skip rows cols L row col v hL hoob pre post _ 3 M
  · intro M hM
    rw [parse_matrix_file_eq l0 l1 _ rows cols h0 h1 hr hc] at hM
    intro hk
    rcases parseMatrixLoop_keys rows cols _ _ 3 M hM (row, col) hk with h' | h'
    · simp [SparseMatrix.construct] at h'
    · exact hoob ⟨⟨h'.1.1, h'.1.2⟩, h'.2⟩

/-- Witness for C9: scenario 4, a `rows=2, cols=2` file whose middle
line has `row = 2`, one past the last valid row. -/
theorem claim_C9_witness :
    (∀ M, parse_matrix_file ("rows=2".data :: "cols=2".data ::
        (["(0, 0, 5)".data] ++ "(2, 0, 7)".data :: ["(1, 1, 4)".data])) =
        .ok M ↔
      parse_matrix_file ("rows=2".data :: "cols=2".data ::
        (["(0, 0, 5)".data] ++ ["(1, 1, 4)".data])) = .ok M) ∧
    (∀ M, parse_matrix_file ("rows=2".data :: "cols=2".data ::
        (["(0, 0, 5)".data] ++ "(2, 0, 7)".data :: ["(1, 1, 4)".data])) =
        .ok M →
      ((2 : ℤ), (0 : ℤ)) ∉ M.data.map Prod.fst) :=
  claim_C9 "rows=2".data "cols=2".data "(2, 0, 7)".data
    ["(0, 0, 5)".data] ["(1, 1, 4)".data] 2 2 2 0 7
    (by decide) (by decide) (by decide) (by decide)
    (fun k => by rfl) (by decide)

/-- C10: construction never validates the dimensions: any `rows`/`cols`,
negative included, yields an empty matrix; when `rows ≤ 0` or
`cols ≤ 0`, every `set` fails with `IndexOutOfBounds`, so the matrix
stays permanently empty and `get` still returns 0 everywhere. -/
theorem claim_C10 (rows cols r c : Int) (v : ℚ)
    (ops : List (Int × Int × ℚ)) (m2 : SparseMatrix) :
    (SparseMatrix.construct rows cols =
      { rows := rows, cols := cols, data := [] }) ∧
    (rows ≤ 0 ∨ cols ≤ 0 →
      ((SparseMatrix.construct rows cols).set r c v =
        .error .indexOutOfBounds) ∧
      (runSetsE (SparseMatrix.construct rows cols) ops = .ok m2 →
        m2.data = [] ∧ ∀ x y, m2.get x y = 0)) := by
  have hfail : rows ≤ 0 ∨ cols ≤ 0 → ∀ (r' c' : Int) (v' : ℚ),
      (SparseMatrix.construct rows cols).set r' c' v' =
        .error .indexOutOfBounds := by
    intro hneg r' c' v'
    refine (set_error_iff _ r' c' v' _).2 ⟨?_, rfl⟩
    show r' < 0 ∨ c' < 0 ∨ r' ≥ rows ∨ c' ≥ cols
    rcases hneg with h | h <;> omega
  refine ⟨rfl, fun hneg => ⟨hfail hneg r c v, fun hrun => ?_⟩⟩
  cases ops with
  | nil =>
    cases hrun
    exact ⟨rfl, fun x y => rfl⟩
  | cons o t =>
    exfalso
    unfold runSetsE at hrun
    simp only [List.foldlM_cons] at hrun
    rw [hfail hneg o.1 o.2.1 o.2.2, except_bind_err] at hrun
    cases hrun

/-- Witness for C10 at `rows = -1`. -/
theorem claim_C10_witness :
    (SparseMatrix.construct (-1) 2 =
      { rows := -1, cols := 2, data := [] }) ∧
    ((-1 : ℤ) ≤ 0 ∨ (2 : ℤ) ≤ 0 →
      ((SparseMatrix.construct (-1) 2).set 0 0 5 =
        .error .indexOutOfBounds) ∧
      (runSetsE (SparseMatrix.construct (-1) 2) [(0, 0, 5)] =
          .ok (SparseMatrix.construct (-1) 2) →
        (SparseMatrix.construct (-1) 2).data = [] ∧
          ∀ x y, (SparseMatrix.construct (-1) 2).get x y = 0)) :=
  claim_C10 (-1) 2 0 0 5 [(0, 0, 5)] (SparseMatrix.construct (-1) 2)
